import Mathlib

/-!
# Query type checking (`cmd/frontend/internal/pkg/search/query/types/check.go`)

A shallow embedding of the query checker: field resolution, value coercion,
the regexp repair pass and the per-query loop, followed by theorems about them.

Go strings are byte sequences, so they are modelled as lists of bytes; indices
into them are byte offsets, exactly as in the source.  The standard library
(`regexp.Compile`, `strconv.Unquote`) is not part of the repository and enters
as a parameter `GoLib`; `strconvUnquote` models the library unquoting for the
statements that depend on what it returns.  A Go call that returns `(T, error)`
and may also panic is modelled by `Res`.

The namespace `Notify` holds `dedupUsers` of `server/local/notify.go`.
-/

namespace QueryTypes

/-! ## Strings, results, maps -/

/-- A Go string: an immutable sequence of bytes. -/
abbrev GoString := List UInt8

/-- The bytes (UTF-8) of a string literal. -/
def str (s : String) : GoString := s.data.flatMap String.utf8EncodeChar

/-- Outcome of a Go call with results `(T, error)`: a value, a non-nil error, or a
runtime panic (nil dereference, index out of range). -/
inductive Res (ε α : Type) where
  | ok (a : α)
  | error (e : ε)
  | panic
  deriving DecidableEq, Repr

deriving instance DecidableEq for Except

/-- Lift a library result, which never panics, into `Res`. -/
def Res.ofExcept {ε α : Type} : Except ε α → Res ε α
  | .ok a => .ok a
  | .error e => .error e

/-- A Go `map[string]T`, kept as an association list; `get` returns the first binding
of a key and `set` overwrites it or adds the key at the end. -/
structure GoMap (α : Type) where
  entries : List (GoString × α)
  deriving DecidableEq, Repr

/-- Lookup in an association list. -/
def lookupEntry {α : Type} (k : GoString) : List (GoString × α) → Option α
  | [] => none
  | (k', v) :: t => if k' = k then some v else lookupEntry k t

/-- Assignment in an association list. -/
def assignEntry {α : Type} (k : GoString) (v : α) : List (GoString × α) → List (GoString × α)
  | [] => [(k, v)]
  | (k', v') :: t => if k' = k then (k, v) :: t else (k', v') :: assignEntry k v t

/-- The empty map, `map[string]T{}`. -/
def GoMap.empty {α : Type} : GoMap α := ⟨[]⟩

/-- The comma-ok lookup `v, ok := m[k]`. -/
def GoMap.get {α : Type} (m : GoMap α) (k : GoString) : Option α := lookupEntry k m.entries

/-- The assignment `m[k] = v`. -/
def GoMap.set {α : Type} (m : GoMap α) (k : GoString) (v : α) : GoMap α :=
  ⟨assignEntry k v m.entries⟩

/-- The keys of the map. -/
def GoMap.keys {α : Type} (m : GoMap α) : List GoString := m.entries.map Prod.fst

/-- The plain index expression `m[k]` on a map of slices: a missing key yields the nil
slice. -/
def GoMap.getSlice {α : Type} (m : GoMap (List α)) (k : GoString) : List α :=
  (m.get k).getD []

/-! ## Data model -/

/-- Modelled from the spec: the declaration of `ValueType` is not among the sources; the
spec lists the target types String, Regexp, Boolean and None (the zero value). -/
inductive ValueType where
  | NoType
  | StringType
  | RegexpType
  | BoolType
  deriving DecidableEq, Repr

/-- Modelled from the spec: the token kinds of the parser package, which is not among
the sources; an expression's token kind is Literal, Quoted or Pattern. -/
inductive TokenType where
  | TokenLiteral
  | TokenQuoted
  | TokenPattern
  deriving DecidableEq, Repr

/-- Modelled from the spec: the parser's expression record (position, negation flag,
field name, raw text, token kind), read by `checkExpr` as `expr.Pos`, `expr.Not`,
`expr.Field`, `expr.Value` and `expr.ValueType`. -/
structure Expr where
  Pos : Int
  Not : Bool
  Field : GoString
  Value : GoString
  ValueType : TokenType
  deriving DecidableEq, Repr

/-- Modelled from the spec: the parser's query, of which the checker reads the
expression list `query.Expr`. -/
structure SyntaxQuery where
  Expr : List Expr
  deriving DecidableEq, Repr

/-- A compiled pattern, identified by the expression text it was compiled from. -/
structure Regexp where
  expr : GoString
  deriving DecidableEq, Repr

/-- The typed value built by `checkExpr` and `setValue`: the back-reference to the
expression and the three nullable variants. -/
structure Value where
  syntaxExpr : Expr
  String : Option GoString
  Regexp : Option Regexp
  Bool : Option Bool
  deriving DecidableEq, Repr

/-- The descriptor `FieldType`; `FeatureFlagEnabled` is a nullable `func() bool`. -/
structure FieldType where
  Literal : ValueType
  Quoted : ValueType
  Singular : Bool
  Negatable : Bool
  FeatureFlagEnabled : Option (Unit → Bool)

/-- The zero value `FieldType{}`. -/
def FieldType.zero : FieldType := ⟨.NoType, .NoType, false, false, none⟩

/-- The configuration `Config`. -/
structure Config where
  FieldTypes : GoMap FieldType
  FieldAliases : GoMap GoString

/-- The error values the checker creates, one constructor per `errors.New` or
`fmt.Errorf` call of the source (its format string is quoted at each), plus the
diagnostic of `regexp.Compile` passed through unchanged. -/
inductive CheckError where
  /-- The error `unrecognized field %q`. -/
  | unrecognizedField (field : GoString)
  /-- The error `unrecognized field %q; the feature flag for this field is not enabled`. -/
  | featureFlagDisabled (field : GoString)
  /-- The error `negated terms (-term) are not yet supported`. -/
  | negatedTerm
  /-- The error `field %q does not support negation`. -/
  | negationUnsupported (field : GoString)
  /-- The error `invalid quoted string: %s`. -/
  | invalidQuotedString (s : GoString)
  /-- The error `invalid boolean %q`. -/
  | invalidBoolean (s : GoString)
  /-- The error `no type for literal`. -/
  | noTypeForLiteral
  /-- An error returned by `regexp.Compile`, with its message. -/
  | regexpCompile (msg : GoString)
  /-- The error `field %q may not be used more than once`. -/
  | duplicateField (field : GoString)
  deriving DecidableEq, Repr

/-- The message `err.Error()`; `quote` is the `%q` verb (`strconv.Quote`). -/
def CheckError.message (quote : GoString → GoString) : CheckError → GoString
  | .unrecognizedField f => str "unrecognized field " ++ quote f
  | .featureFlagDisabled f =>
      str "unrecognized field " ++ quote f ++
        str "; the feature flag for this field is not enabled"
  | .negatedTerm => str "negated terms (-term) are not yet supported"
  | .negationUnsupported f => str "field " ++ quote f ++ str " does not support negation"
  | .invalidQuotedString s => str "invalid quoted string: " ++ s
  | .invalidBoolean s => str "invalid boolean " ++ quote s
  | .noTypeForLiteral => str "no type for literal"
  | .regexpCompile msg => msg
  | .duplicateField f => str "field " ++ quote f ++ str " may not be used more than once"

/-- The error `TypeError`: a position and the underlying error. -/
structure TypeError where
  Pos : Int
  Err : CheckError
  deriving DecidableEq, Repr

/-- The typed query `Query`: the original query and the values of each field. -/
structure Query where
  Syntax : SyntaxQuery
  Fields : GoMap (List Value)
  deriving DecidableEq, Repr

/-- The standard-library functions the checker calls. `compile` is `regexp.Compile`,
whose error is represented by its message; `unquote` is `strconv.Unquote`. -/
structure GoLib where
  compile : GoString → Except GoString Regexp
  unquote : GoString → Option GoString

/-! ## Field resolution -/

/-- The method `Config.resolveField`, with its three results `(resolvedField, typ, err)`.
The named result `resolvedField` stays empty on every error return, and `typ` stays
the descriptor that was looked up. -/
def resolveField (c : Config) (field : GoString) (isNot : Bool) :
    GoString × FieldType × Option CheckError :=
  let field := match c.FieldAliases.get field with
    | some resolved => resolved
    | none => field
  match c.FieldTypes.get field with
  | none => ([], FieldType.zero, some (.unrecognizedField field))
  | some typ =>
    if (match typ.FeatureFlagEnabled with
        | some enabled => !(enabled ())
        | none => false) then
      ([], typ, some (.featureFlagDisabled field))
    else if isNot && !typ.Negatable then
      if field = [] then ([], typ, some .negatedTerm)
      else ([], typ, some (.negationUnsupported field))
    else (field, typ, none)

/-! ## Value coercion -/

/-- The standard `strconv.ParseBool`. -/
def strconvParseBool (s : GoString) : Option Bool :=
  if s = str "1" ∨ s = str "t" ∨ s = str "T" ∨ s = str "TRUE" ∨ s = str "true" ∨
      s = str "True" then some true
  else if s = str "0" ∨ s = str "f" ∨ s = str "F" ∨ s = str "FALSE" ∨ s = str "false" ∨
      s = str "False" then some false
  else none

/-- The function `parseBool`. -/
def parseBool (s : GoString) : Except CheckError Bool :=
  if s = str "y" ∨ s = str "Y" ∨ s = str "yes" ∨ s = str "YES" ∨ s = str "Yes" then
    .ok true
  else if s = str "n" ∨ s = str "N" ∨ s = str "no" ∨ s = str "NO" ∨ s = str "No" then
    .ok false
  else
    match strconvParseBool s with
    | some b => .ok b
    | none => .error (.invalidBoolean s)

/-- The call `strings.Replace(s, old, new, -1)` for a one-byte `old`. -/
def replaceByte (old : UInt8) (new : GoString) (s : GoString) : GoString :=
  s.flatMap (fun b => if b = old then new else [b])

/-- The function `unquoteString`. A text in single quotes is rewritten into double
quotes first, and the rewritten text is the one the error names. -/
def unquoteString (lib : GoLib) (s : GoString) : Except CheckError GoString :=
  let s :=
    if 2 ≤ s.length ∧ s.head? = some 39 ∧ s.getLast? = some 39 then
      [34] ++ replaceByte 34 [92, 34] ((s.drop 1).take (s.length - 2)) ++ [34]
    else s
  match lib.unquote s with
  | some s2 => .ok s2
  | none => .error (.invalidQuotedString s)

/-! ## Regexp repair -/

/-- The number of bytes `utf8.DecodeRuneInString` consumes at the head of a non-empty
string: the length of a well-formed encoding, and 1 for a byte that starts none. -/
def runeWidth : GoString → Nat
  | [] => 0
  | b0 :: t =>
    let cont (b : UInt8) : Bool := 0x80 ≤ b && b ≤ 0xBF
    let tail2 (lo hi : UInt8) : Nat :=
      match t with
      | b1 :: _ => if lo ≤ b1 && b1 ≤ hi then 2 else 1
      | _ => 1
    let tail3 (lo hi : UInt8) : Nat :=
      match t with
      | b1 :: b2 :: _ => if lo ≤ b1 && b1 ≤ hi && cont b2 then 3 else 1
      | _ => 1
    let tail4 (lo hi : UInt8) : Nat :=
      match t with
      | b1 :: b2 :: b3 :: _ => if lo ≤ b1 && b1 ≤ hi && cont b2 && cont b3 then 4 else 1
      | _ => 1
    if b0 < 0xC2 then 1
    else if b0 ≤ 0xDF then tail2 0x80 0xBF
    else if b0 = 0xE0 then tail3 0xA0 0xBF
    else if b0 = 0xED then tail3 0x80 0x9F
    else if b0 ≤ 0xEF then tail3 0x80 0xBF
    else if b0 = 0xF0 then tail4 0x90 0xBF
    else if b0 ≤ 0xF3 then tail4 0x80 0xBF
    else if b0 = 0xF4 then tail4 0x80 0x8F
    else 1

/-- Whether the text starts with a dollar sign followed, through the end of the text,
by no newline: a match of `\$.*$` at its head. -/
def dollarTail : GoString → Bool
  | b :: t => b = 36 && !t.contains 10
  | [] => false

/-- Whether `[^\\]?\$.*$` matches at the head of the text: an optional rune other than a
backslash, then the dollar tail. -/
def dollarMatchHere (s : GoString) : Bool :=
  (s.head? != some 92 && dollarTail (s.drop (runeWidth s))) || dollarTail s

/-- The leftmost start of a match of `unescapedDollarSignRegexp`, trying the rune
boundaries from left to right; `skip` counts the bytes left of the rune being
stepped over and `pos` is the offset of the head of the text. -/
def dollarSearch : Nat → GoString → Nat → Option Nat
  | _, [], _ => none
  | 0, b :: t, pos =>
    if dollarMatchHere (b :: t) then some pos
    else dollarSearch (runeWidth (b :: t) - 1) t (pos + 1)
  | skip + 1, _ :: t, pos => dollarSearch skip t (pos + 1)

/-- The first element of `unescapedDollarSignRegexp.FindStringIndex(v)`, when there is
a match. -/
def unescapedDollarSignIndex (v : GoString) : Option Nat := dollarSearch 0 v 0

/-- The function `preprocessRegexpQuery`. -/
def preprocessRegexpQuery (value : GoString) : GoString :=
  let v := value
  match unescapedDollarSignIndex v with
  | some i =>
    let i := if v.get? i != some 36 then i + 1 else i
    v.take i ++ [92] ++ v.drop i
  | none => v

/-- The result of `FindStringIndex` for a pattern that is a plain text: the bounds of
its first occurrence, searched from offset `pos`. -/
def findLiteral (lit : GoString) : GoString → Nat → Option (Nat × Nat)
  | [], pos => if lit = [] then some (pos, pos) else none
  | b :: t, pos =>
    if lit.isPrefixOf (b :: t) then some (pos, pos + lit.length)
    else findLiteral lit t (pos + 1)

/-- The patterns `escapeErrorRegexps`, both plain texts. -/
def escapeErrorRegexps : List GoString :=
  [str "missing argument to repetition operator: `", str "missing closing "]

/-- The constant `asterisk`. -/
def asterisk : Int := 42

/-- The constant `openParen`. -/
def openParen : Int := 40

/-- The constant `openBracket`. -/
def openBracket : Int := 91

/-- A pattern of the shape `\o[^\c]*$`: an opening byte followed by no closing byte
through the end of the text. -/
structure OpeningRegexp where
  opening : UInt8
  closing : UInt8
  deriving DecidableEq, Repr

/-- The first element of `FindStringIndex` for an `OpeningRegexp`: the leftmost opening
byte with no closing byte after it, searched from offset `pos`. -/
def OpeningRegexp.find (r : OpeningRegexp) : GoString → Nat → Option Nat
  | [], _ => none
  | b :: t, pos =>
    if b = r.opening && !t.contains r.closing then some pos
    else r.find t (pos + 1)

/-- The map `unmatchedOpeningRuneRegexps`; a rune that is no key yields the nil
pattern. -/
def unmatchedOpeningRuneRegexps (r : Int) : Option OpeningRegexp :=
  if r = openParen then some ⟨40, 41⟩
  else if r = openBracket then some ⟨91, 93⟩
  else none

/-- The function `flipRune`. -/
def flipRune (r : Int) : Int :=
  if r = 41 then r - 1
  else if r = 93 ∨ r = 125 then r - 2
  else r

/-- The loop of `fixupRegexpCompileError` over `escapeErrorRegexps`: the match of the
first pattern that matches the message. -/
def firstErrorMatch (msg : GoString) : List GoString → Option (Nat × Nat)
  | [] => none
  | errorRegexp :: rest =>
    match findLiteral errorRegexp msg 0 with
    | some m => some m
    | none => firstErrorMatch msg rest

/-- The function `fixupRegexpCompileError`. Indexing the message past its end, calling
`FindStringIndex` on the nil pattern and indexing the nil match all panic. -/
def fixupRegexpCompileError (lib : GoLib) (value : GoString) (err : GoString) :
    Res GoString Regexp :=
  let msg := err
  match firstErrorMatch msg escapeErrorRegexps with
  | none => .error err
  | some matchIndex =>
    match msg.get? matchIndex.2 with
    | none => .panic
    | some b =>
      let runeToEscape := flipRune (b.toNat : Int)
      if runeToEscape = asterisk then
        let correctedValue := replaceByte 42 [92, 42] value
        Res.ofExcept (lib.compile correctedValue)
      else
        match unmatchedOpeningRuneRegexps runeToEscape with
        | none => .panic
        | some r =>
          match r.find value 0 with
          | none => .panic
          | some m =>
            let correctedValue := value.take m ++ [92] ++ value.drop m
            Res.ofExcept (lib.compile correctedValue)

/-- The function `compileRegexp`. -/
def compileRegexp (lib : GoLib) (value : GoString) : Res GoString Regexp :=
  let v := preprocessRegexpQuery value
  match lib.compile v with
  | .error err => fixupRegexpCompileError lib v err
  | .ok r => .ok r

/-- The function `setValue`; the result is `dst` after the assignment. -/
def setValue (lib : GoLib) (dst : Value) (valueString : GoString) (valueType : ValueType) :
    Res CheckError Value :=
  match valueType with
  | .StringType => .ok { dst with String := some valueString }
  | .RegexpType =>
    match compileRegexp lib valueString with
    | .ok p => .ok { dst with Regexp := some p }
    | .error err => .error (.regexpCompile err)
    | .panic => .panic
  | .BoolType =>
    match parseBool valueString with
    | .ok b => .ok { dst with Bool := some b }
    | .error err => .error err
  | .NoType => .error .noTypeForLiteral

/-! ## The checker -/

/-- Wrap the error of a coercion in a `TypeError` at position `pos`, as each branch of
`checkExpr` does. -/
def atPos {α β : Type} (pos : Int) (f : α → β) : Res CheckError α → Res TypeError β
  | .ok a => .ok (f a)
  | .error err => .error ⟨pos, err⟩
  | .panic => .panic

/-- The method `Config.checkExpr`, with results `(field, fieldType, value)` or an error. -/
def checkExpr (lib : GoLib) (c : Config) (expr : Expr) :
    Res TypeError (GoString × FieldType × Value) :=
  match resolveField c expr.Field expr.Not with
  | (_, _, some err) => .error ⟨expr.Pos, err⟩
  | (resolvedField, fieldType, none) =>
    let value : Value := ⟨expr, none, none, none⟩
    match expr.ValueType with
    | .TokenLiteral =>
      atPos expr.Pos (fun v => (resolvedField, fieldType, v))
        (setValue lib value expr.Value fieldType.Literal)
    | .TokenQuoted =>
      match unquoteString lib expr.Value with
      | .error err => .error ⟨expr.Pos, err⟩
      | .ok stringValue =>
        atPos expr.Pos (fun v => (resolvedField, fieldType, v))
          (setValue lib value stringValue fieldType.Quoted)
    | .TokenPattern =>
      atPos expr.Pos (fun v => (resolvedField, fieldType, v))
        (setValue lib value expr.Value .RegexpType)

/-- One iteration of the loop of `Config.Check` on the accumulated `Fields`. -/
def checkStep (lib : GoLib) (c : Config) (fields : GoMap (List Value)) (expr : Expr) :
    Res TypeError (GoMap (List Value)) :=
  match checkExpr lib c expr with
  | .error err => .error err
  | .panic => .panic
  | .ok (field, fieldType, value) =>
    if fieldType.Singular && decide (1 ≤ (fields.getSlice field).length) then
      .error ⟨expr.Pos, .duplicateField field⟩
    else
      .ok (fields.set field (fields.getSlice field ++ [value]))

/-- The loop of `Config.Check` over the expressions still to be checked. -/
def checkLoop (lib : GoLib) (c : Config) :
    List Expr → GoMap (List Value) → Res TypeError (GoMap (List Value))
  | [], fields => .ok fields
  | expr :: rest, fields =>
    match checkStep lib c fields expr with
    | .ok fields' => checkLoop lib c rest fields'
    | .error err => .error err
    | .panic => .panic

/-- The method `Config.Check`. -/
def Check (lib : GoLib) (c : Config) (query : SyntaxQuery) : Res TypeError Query :=
  match checkLoop lib c query.Expr GoMap.empty with
  | .ok fields => .ok ⟨query, fields⟩
  | .error err => .error err
  | .panic => .panic

/-! ## Auxiliary notions used in the statements -/

/-- The text that `fixupRegexpCompileError` compiles in its retry (the two assignments
to `correctedValue` of the source), when the message belongs to one of the families of
`escapeErrorRegexps` and no step before the retry panics. -/
def correctedValue (value : GoString) (msg : GoString) : Option GoString :=
  match firstErrorMatch msg escapeErrorRegexps with
  | none => none
  | some matchIndex =>
    match msg.get? matchIndex.2 with
    | none => none
    | some b =>
      if flipRune (b.toNat : Int) = asterisk then some (replaceByte 42 [92, 42] value)
      else
        match unmatchedOpeningRuneRegexps (flipRune (b.toNat : Int)) with
        | none => none
        | some r =>
          match r.find value 0 with
          | none => none
          | some m => some (value.take m ++ [92] ++ value.drop m)

/-- Whether the pattern contains a dollar sign that is not preceded by a backslash and
is not the last byte of the pattern. -/
def hasInnerUnescapedDollar (v : GoString) : Bool :=
  (List.range v.length).any (fun i =>
    v.get? i == some 36 && decide (i + 1 < v.length) &&
      (i == 0 || v.get? (i - 1) != some 92))

/-- The first `k` bytes of the text exist and are not ASCII: the bytes a rune of width
`k + 1` covers after its first byte. -/
def contPrefix (k : Nat) (s : GoString) : Prop :=
  k ≤ s.length ∧ ∀ x ∈ s.take k, (128 : UInt8) ≤ x

/-! ## Sample data

Concrete inputs on which the definitions above are evaluated. -/

/-- The results of the standard library on the texts used in the examples.
`regexp.Compile` rejects `+` and `*` (a repetition operator without argument) and
`((`, `\((`, `a(b` (an unclosed group); its message is
`error parsing regexp: ` followed by the error code and the offending text between
backquotes. Every other text used in the examples compiles. `strconv.Unquote` is
applied only to a text in double quotes whose body is free of backslashes, double
quotes and newlines and is plain ASCII, for which it returns the body. -/
def sampleLib : GoLib where
  compile v :=
    if v = str "+" then
      .error (str "error parsing regexp: missing argument to repetition operator: `+`")
    else if v = str "*" then
      .error (str "error parsing regexp: missing argument to repetition operator: `*`")
    else if v = str "((" then
      .error (str "error parsing regexp: missing closing ): `((`")
    else if v = str "\\((" then
      .error (str "error parsing regexp: missing closing ): `\\((`")
    else if v = str "a(b" then
      .error (str "error parsing regexp: missing closing ): `a(b`")
    else .ok ⟨v⟩
  unquote s :=
    let body := (s.drop 1).take (s.length - 2)
    if 2 ≤ s.length ∧ s.head? = some 34 ∧ s.getLast? = some 34 ∧
        body.all (fun b => b != 34 && b != 92 && b != 10 && b < 128) then some body
    else none

/-- A configuration with a singular boolean field `count` and a negatable pattern
field `repo` with the alias `r`. -/
def sampleConfig : Config where
  FieldTypes := ⟨[(str "count", ⟨.BoolType, .NoType, true, false, none⟩),
                  (str "repo", ⟨.RegexpType, .StringType, false, true, none⟩)]⟩
  FieldAliases := ⟨[(str "r", str "repo")]⟩

/-- A configuration in which the target `group` of the alias `g` is itself an alias. -/
def chainConfig : Config where
  FieldTypes := ⟨[(str "repogroup", ⟨.StringType, .StringType, false, false, none⟩)]⟩
  FieldAliases := ⟨[(str "g", str "group"), (str "group", str "repogroup")]⟩

/-- The expression `count:yes` at offset 0. -/
def exprCountYes : Expr := ⟨0, false, str "count", str "yes", .TokenLiteral⟩

/-- The expression `count:no` at offset 10. -/
def exprCountNo : Expr := ⟨10, false, str "count", str "no", .TokenLiteral⟩

/-- The expression `r:foo` at offset 4. -/
def exprRepoFoo : Expr := ⟨4, false, str "r", str "foo", .TokenLiteral⟩

/-- The expression `lang:go` at offset 20, on a field the sample configuration lacks. -/
def exprLangGo : Expr := ⟨20, false, str "lang", str "go", .TokenLiteral⟩

/-- The typed query that checking `count:yes r:foo` yields. -/
def sampleTyped : Query where
  Syntax := ⟨[exprCountYes, exprRepoFoo]⟩
  Fields := ⟨[(str "count", [⟨exprCountYes, none, none, some true⟩]),
              (str "repo", [⟨exprRepoFoo, none, some ⟨str "foo"⟩, none⟩])]⟩

/-- The name `resolveField` looks up in `FieldTypes`: the alias target when the name
passed in is a key of the alias mapping, and the name itself otherwise. -/
def canonicalName (c : Config) (fieldName : GoString) : GoString :=
  (c.FieldAliases.get fieldName).getD fieldName

/-- Whether the descriptor is enabled: its predicate is nil or returns true. -/
def FieldType.enabled (typ : FieldType) : Bool :=
  match typ.FeatureFlagEnabled with
  | some enabled => enabled ()
  | none => true

/-- The verb `%q` on a text of printable ASCII without double quotes and backslashes:
the text between double quotes. -/
def sampleQuote (s : GoString) : GoString := [34] ++ s ++ [34]

/-- A configuration whose bare-pattern field (the empty name) has the alias `any` and
is not negatable. -/
def bareAliasConfig : Config where
  FieldTypes := ⟨[(str "", ⟨.RegexpType, .StringType, false, false, none⟩)]⟩
  FieldAliases := ⟨[(str "any", str "")]⟩

/-- A configuration whose field `beta` is behind a feature flag that is off. -/
def flaggedConfig : Config where
  FieldTypes := ⟨[(str "beta", ⟨.StringType, .StringType, false, false,
    some (fun _ => false)⟩)]⟩
  FieldAliases := ⟨[]⟩

/-- A configuration without fields. -/
def emptyConfig : Config where
  FieldTypes := ⟨[]⟩
  FieldAliases := ⟨[]⟩

/-- The values, in order, of the expressions of the list that check and resolve to the
given field. -/
def valuesOf (lib : GoLib) (c : Config) (field : GoString) (l : List Expr) : List Value :=
  l.filterMap (fun e =>
    match checkExpr lib c e with
    | .ok (f, _, v) => if f = field then some v else none
    | _ => none)

/-- The value type `checkExpr` selects for an expression under a descriptor: the
literal type for a Literal token, the quoted type for a Quoted token, and the Regexp
type for a Pattern token. -/
def selectedType (fieldType : FieldType) (expr : Expr) : ValueType :=
  match expr.ValueType with
  | .TokenLiteral => fieldType.Literal
  | .TokenQuoted => fieldType.Quoted
  | .TokenPattern => .RegexpType

/-- Whether exactly the variant of the given type is populated in the value. -/
def populatedAs (v : Value) : ValueType → Bool
  | .StringType => v.String.isSome && v.Regexp.isNone && v.Bool.isNone
  | .RegexpType => v.String.isNone && v.Regexp.isSome && v.Bool.isNone
  | .BoolType => v.String.isNone && v.Regexp.isNone && v.Bool.isSome
  | .NoType => false

/-- The expression `-count:yes` at offset 0, negated. -/
def exprNotCountYes : Expr := ⟨0, true, str "count", str "yes", .TokenLiteral⟩

/-- The expression `-r:foo` at offset 4, negated. -/
def exprNotRepoFoo : Expr := ⟨4, true, str "r", str "foo", .TokenLiteral⟩

/-- What a check of one expression yields apart from the descriptor and the
back-reference: the canonical field and the three variants of the value, or the error. -/
def checkOutcome (r : Res TypeError (GoString × FieldType × Value)) :
    Res TypeError (GoString × Option GoString × Option Regexp × Option Bool) :=
  match r with
  | .ok (f, _, v) => .ok (f, v.String, v.Regexp, v.Bool)
  | .error err => .error err
  | .panic => .panic

/-- Whether the expression checks and resolves to the given field. -/
def resolvesTo (lib : GoLib) (c : Config) (field : GoString) (e : Expr) : Bool :=
  match checkExpr lib c e with
  | .ok (f, _, _) => decide (f = field)
  | _ => false

/-- The number of values stored in the map, over all its keys. -/
def totalValues (m : GoMap (List Value)) : Nat :=
  (m.entries.map (fun p => p.2.length)).sum

end QueryTypes

/-! ## Recipient deduplication (`server/local/notify.go`) -/

namespace Notify

/-- The loop of `dedupUsers`: `seen` holds the keys of the map `seen` and `dedup` the
slice built so far. The declaration of `sourcegraph.UserSpec` is not among the sources;
the function reads only its field `UID`, so the record is a parameter `User` and the
field a projection. -/
def dedupLoop {User : Type} (UID : User → Int) : List User → List Int → List User → List User
  | [], _, dedup => dedup
  | u :: rest, seen, dedup =>
    if UID u ∈ seen then dedupLoop UID rest seen dedup
    else dedupLoop UID rest (UID u :: seen) (dedup ++ [u])

/-- The function `dedupUsers`. -/
def dedupUsers {User : Type} (UID : User → Int) (users : List User) : List User :=
  dedupLoop UID users [] []

/-- The users of the list whose UID is neither in `seen` nor carried by an earlier user
of the list. -/
def firstSeen {User : Type} (UID : User → Int) : List User → List Int → List User
  | [], _ => []
  | u :: rest, seen =>
    if UID u ∈ seen then firstSeen UID rest seen
    else u :: firstSeen UID rest (UID u :: seen)

end Notify

namespace QueryTypes

/-! ## The standard unquoting (`strconv.Unquote`)

A model of the library function, used where a statement depends on what it returns.
Runes are natural numbers; the masks and shifts of the library are written with `%`,
`/` and `*`. -/

/-- The function `utf8.ValidRune`. -/
def utf8ValidRune (r : Nat) : Bool := r < 0xD800 || (0xDFFF < r && r ≤ 0x10FFFF)

/-- The function `utf8.EncodeRune`: the encoding of a rune, and that of U+FFFD for a
value that is no valid rune. -/
def utf8EncodeRune (r : Nat) : GoString :=
  if r ≤ 0x7F then [UInt8.ofNat r]
  else if r ≤ 0x7FF then [UInt8.ofNat (0xC0 + r / 64), UInt8.ofNat (0x80 + r % 64)]
  else if !utf8ValidRune r then [0xEF, 0xBF, 0xBD]
  else if r ≤ 0xFFFF then
    [UInt8.ofNat (0xE0 + r / 4096), UInt8.ofNat (0x80 + r / 64 % 64),
      UInt8.ofNat (0x80 + r % 64)]
  else
    [UInt8.ofNat (0xF0 + r / 262144), UInt8.ofNat (0x80 + r / 4096 % 64),
      UInt8.ofNat (0x80 + r / 64 % 64), UInt8.ofNat (0x80 + r % 64)]

/-- The function `utf8.DecodeRuneInString`: the rune at the head of the text and the
number of bytes it takes; U+FFFD and 1 for a byte that starts no well-formed encoding. -/
def utf8DecodeRune (s : GoString) : Nat × Nat :=
  match s with
  | [] => (0xFFFD, 0)
  | b0 :: t =>
    if b0 < 0x80 then (b0.toNat, 1)
    else
      match runeWidth s, t with
      | 2, b1 :: _ => (b0.toNat % 32 * 64 + b1.toNat % 64, 2)
      | 3, b1 :: b2 :: _ => (b0.toNat % 16 * 4096 + b1.toNat % 64 * 64 + b2.toNat % 64, 3)
      | 4, b1 :: b2 :: b3 :: _ =>
        (b0.toNat % 8 * 262144 + b1.toNat % 64 * 4096 + b2.toNat % 64 * 64 + b3.toNat % 64, 4)
      | _, _ => (0xFFFD, 1)

/-- The function `utf8.ValidString`, stepping over the text rune by rune; `skip` counts
the bytes left of the rune being stepped over. -/
def utf8Valid : Nat → GoString → Bool
  | _, [] => true
  | 0, b :: t =>
    if b < 0x80 then utf8Valid 0 t
    else if runeWidth (b :: t) = 1 then false
    else utf8Valid (runeWidth (b :: t) - 1) t
  | skip + 1, _ :: t => utf8Valid skip t

/-- The function `unhex` of `strconv`. -/
def unhex (b : UInt8) : Option Nat :=
  if 48 ≤ b ∧ b ≤ 57 then some (b.toNat - 48)
  else if 97 ≤ b ∧ b ≤ 102 then some (b.toNat - 97 + 10)
  else if 65 ≤ b ∧ b ≤ 70 then some (b.toNat - 65 + 10)
  else none

/-- The loop of `UnquoteChar` over the `n` hexadecimal digits of an escape. -/
def unquoteHex : Nat → GoString → Nat → Option (Nat × GoString)
  | 0, s, v => some (v, s)
  | _ + 1, [], _ => none
  | n + 1, b :: t, v =>
    match unhex b with
    | some x => unquoteHex n t (v * 16 + x)
    | none => none

/-- The loop of `UnquoteChar` over the two further octal digits of an escape. -/
def unquoteOctal : Nat → GoString → Nat → Option (Nat × GoString)
  | 0, s, v => some (v, s)
  | _ + 1, [], _ => none
  | n + 1, b :: t, v =>
    if 48 ≤ b ∧ b ≤ 55 then unquoteOctal n t (v * 8 + (b.toNat - 48)) else none

/-- The function `strconv.UnquoteChar`: the value of the first character or escape of
the text, whether it is a multibyte rune, and the rest of the text. A numeric escape
`\u` or `\U` must denote a valid rune. -/
def strconvUnquoteChar (s : GoString) (quote : UInt8) : Option (Nat × Bool × GoString) :=
  match s with
  | [] => none
  | c :: t =>
    if c = quote ∧ (quote = 39 ∨ quote = 34) then none
    else if 0x80 ≤ c then
      some ((utf8DecodeRune s).1, true, s.drop (utf8DecodeRune s).2)
    else if c ≠ 92 then some (c.toNat, false, t)
    else
      match t with
      | [] => none
      | c :: s =>
        if c = 97 then some (7, false, s)
        else if c = 98 then some (8, false, s)
        else if c = 102 then some (12, false, s)
        else if c = 110 then some (10, false, s)
        else if c = 114 then some (13, false, s)
        else if c = 116 then some (9, false, s)
        else if c = 118 then some (11, false, s)
        else if c = 120 then
          (unquoteHex 2 s 0).map (fun p => (p.1, false, p.2))
        else if c = 117 ∨ c = 85 then
          match unquoteHex (if c = 117 then 4 else 8) s 0 with
          | some (v, s) => if utf8ValidRune v then some (v, true, s) else none
          | none => none
        else if 48 ≤ c ∧ c ≤ 55 then
          match unquoteOctal 2 s (c.toNat - 48) with
          | some (v, s) => if 255 < v then none else some (v, false, s)
          | none => none
        else if c = 92 then some (92, false, s)
        else if c = 39 ∨ c = 34 then
          if c ≠ quote then none else some (c.toNat, false, s)
        else none

/-- The loop of `strconv.Unquote` over the text between the quotes; `fuel` bounds the
number of characters, each of which takes at least one byte. -/
def unquoteLoop (quote : UInt8) : Nat → GoString → GoString → Option GoString
  | _, [], buf => some buf
  | 0, _ :: _, _ => none
  | fuel + 1, c :: t, buf =>
    match strconvUnquoteChar (c :: t) quote with
    | none => none
    | some (r, multibyte, rest) =>
      let buf :=
        if r < 0x80 || !multibyte then buf ++ [UInt8.ofNat r] else buf ++ utf8EncodeRune r
      if quote = 39 ∧ rest ≠ [] then none
      else unquoteLoop quote fuel rest buf

/-- The function `strconv.Unquote`. -/
def strconvUnquote (s : GoString) : Option GoString :=
  let n := s.length
  if n < 2 then none
  else
    match s.head?, s.getLast? with
    | some quote, some last =>
      if quote ≠ last then none
      else
        let s := (s.drop 1).take (n - 2)
        if quote = 96 then
          if s.contains 96 then none else some (s.filter (fun b => b != 13))
        else if quote ≠ 34 ∧ quote ≠ 39 then none
        else if s.contains 10 then none
        else if !s.contains 92 && !s.contains quote &&
            (if quote = 34 then utf8Valid 0 s
             else decide ((utf8DecodeRune s).2 = s.length) &&
               ((utf8DecodeRune s).1 != 0xFFFD || (utf8DecodeRune s).2 != 1)) then
          some s
        else unquoteLoop quote s.length s []
    | _, _ => none

/-- The library with `strconv.Unquote` as modelled and a given `regexp.Compile`. -/
def stdLib (compile : GoString → Except GoString Regexp) : GoLib := ⟨compile, strconvUnquote⟩
/-- The byte values of a well-formed two-byte encoding. -/
def wellFormed2 (n0 n1 : Nat) : Prop :=
  194 ≤ n0 ∧ n0 ≤ 223 ∧ 128 ≤ n1 ∧ n1 ≤ 191

/-- The byte values of a well-formed three-byte encoding. -/
def wellFormed3 (n0 n1 n2 : Nat) : Prop :=
  224 ≤ n0 ∧ n0 ≤ 239 ∧ 128 ≤ n1 ∧ n1 ≤ 191 ∧ (n0 = 224 → 160 ≤ n1) ∧
    (n0 = 237 → n1 ≤ 159) ∧ 128 ≤ n2 ∧ n2 ≤ 191

/-- The byte values of a well-formed four-byte encoding. -/
def wellFormed4 (n0 n1 n2 n3 : Nat) : Prop :=
  240 ≤ n0 ∧ n0 ≤ 244 ∧ 128 ≤ n1 ∧ n1 ≤ 191 ∧ (n0 = 240 → 144 ≤ n1) ∧
    (n0 = 244 → n1 ≤ 143) ∧ 128 ≤ n2 ∧ n2 ≤ 191 ∧ 128 ≤ n3 ∧ n3 ≤ 191

/-! # Theorems -/

/-! ## Maps -/

theorem lookupEntry_assignEntry_same {α : Type} (k : GoString) (v : α)
    (l : List (GoString × α)) : lookupEntry k (assignEntry k v l) = some v := by
  induction l with
  | nil => simp [assignEntry, lookupEntry]
  | cons p t ih =>
    obtain ⟨k', v'⟩ := p
    by_cases h : k' = k <;> simp [assignEntry, lookupEntry, h, ih]

theorem lookupEntry_assignEntry_other {α : Type} (k k2 : GoString) (v : α)
    (l : List (GoString × α)) (hne : k ≠ k2) :
    lookupEntry k2 (assignEntry k v l) = lookupEntry k2 l := by
  induction l with
  | nil => simp [assignEntry, lookupEntry, hne]
  | cons p t ih =>
    obtain ⟨k', v'⟩ := p
    by_cases h : k' = k
    · subst h; simp [assignEntry, lookupEntry, hne]
    · by_cases h2 : k' = k2
      · subst h2; simp [assignEntry, lookupEntry, h]
      · simp [assignEntry, lookupEntry, h, h2, ih]

theorem mem_keys_assignEntry {α : Type} (k k2 : GoString) (v : α)
    (l : List (GoString × α)) :
    k2 ∈ (assignEntry k v l).map Prod.fst ↔ k2 = k ∨ k2 ∈ l.map Prod.fst := by
  induction l with
  | nil => simp [assignEntry]
  | cons p t ih =>
    obtain ⟨k', v'⟩ := p
    by_cases h : k' = k
    · subst h; simp [assignEntry]
    · simp only [assignEntry, h, if_false, List.map_cons, List.mem_cons, ih]
      tauto

theorem GoMap.getSlice_set_same {α : Type} (m : GoMap (List α)) (k : GoString) (v : List α) :
    (m.set k v).getSlice k = v := by
  simp [GoMap.getSlice, GoMap.get, GoMap.set, lookupEntry_assignEntry_same]

theorem GoMap.getSlice_set_other {α : Type} (m : GoMap (List α)) (k k2 : GoString)
    (v : List α) (hne : k ≠ k2) : (m.set k v).getSlice k2 = m.getSlice k2 := by
  simp [GoMap.getSlice, GoMap.get, GoMap.set, lookupEntry_assignEntry_other _ _ _ _ hne]

theorem GoMap.mem_keys_set {α : Type} (m : GoMap α) (k k2 : GoString) (v : α) :
    k2 ∈ (m.set k v).keys ↔ k2 = k ∨ k2 ∈ m.keys := by
  unfold GoMap.keys GoMap.set
  exact mem_keys_assignEntry k k2 v m.entries

theorem GoMap.getSlice_empty {α : Type} (k : GoString) :
    (GoMap.empty : GoMap (List α)).getSlice k = [] := rfl

/-! ## Field resolution and expression checking -/

theorem resolveField_ok (c : Config) (field : GoString) (isNot : Bool) (r : GoString)
    (typ : FieldType) (h : resolveField c field isNot = (r, typ, none)) :
    c.FieldTypes.get r = some typ := by
  unfold resolveField at h
  simp only at h
  split at h
  · simp at h
  · rename_i typ' hget
    split_ifs at h <;> simp at h
    obtain ⟨h1, h2⟩ := h
    rw [← h1, ← h2]; exact hget

theorem atPos_ok {α β : Type} (pos : Int) (f : α → β) (r : Res CheckError α) (b : β)
    (h : atPos pos f r = .ok b) : ∃ a, r = .ok a ∧ f a = b := by
  cases r <;> simp [atPos] at h
  exact ⟨_, rfl, h⟩

theorem atPos_error {α β : Type} (pos : Int) (f : α → β) (r : Res CheckError α)
    (te : TypeError) (h : atPos pos f r = .error te) : te.Pos = pos := by
  cases r <;> simp [atPos] at h
  rw [← h]

theorem checkExpr_ok_fieldType (lib : GoLib) (c : Config) (e : Expr) (f : GoString)
    (ft : FieldType) (v : Value) (h : checkExpr lib c e = .ok (f, ft, v)) :
    c.FieldTypes.get f = some ft := by
  unfold checkExpr at h
  split at h
  · simp at h
  · rename_i r typ hres
    have hget := resolveField_ok c e.Field e.Not r typ hres
    simp only at h
    split at h
    · obtain ⟨a, _, ha⟩ := atPos_ok _ _ _ _ h
      simp only [Prod.mk.injEq] at ha
      rw [← ha.1, ← ha.2.1]; exact hget
    · split at h
      · simp at h
      · obtain ⟨a, _, ha⟩ := atPos_ok _ _ _ _ h
        simp only [Prod.mk.injEq] at ha
        rw [← ha.1, ← ha.2.1]; exact hget
    · obtain ⟨a, _, ha⟩ := atPos_ok _ _ _ _ h
      simp only [Prod.mk.injEq] at ha
      rw [← ha.1, ← ha.2.1]; exact hget

theorem checkExpr_error_pos (lib : GoLib) (c : Config) (e : Expr) (te : TypeError)
    (h : checkExpr lib c e = .error te) : te.Pos = e.Pos := by
  unfold checkExpr at h
  split at h
  · simp at h; rw [← h]
  · simp only at h
    split at h
    · exact atPos_error _ _ _ _ h
    · split at h
      · simp at h; rw [← h]
      · exact atPos_error _ _ _ _ h
    · exact atPos_error _ _ _ _ h

theorem checkStep_error_pos (lib : GoLib) (c : Config) (fields : GoMap (List Value))
    (e : Expr) (te : TypeError) (h : checkStep lib c fields e = .error te) :
    te.Pos = e.Pos := by
  unfold checkStep at h
  split at h
  · rename_i err herr
    simp at h; subst h
    exact checkExpr_error_pos lib c e _ herr
  · simp at h
  · split_ifs at h
    simp at h; rw [← h]

/-! ## The loop -/

theorem checkLoop_append (lib : GoLib) (c : Config) (pre rest : List Expr)
    (fields : GoMap (List Value)) :
    checkLoop lib c (pre ++ rest) fields =
      match checkLoop lib c pre fields with
      | .ok fields' => checkLoop lib c rest fields'
      | .error err => .error err
      | .panic => .panic := by
  induction pre generalizing fields with
  | nil => simp [checkLoop]
  | cons e t ih =>
    simp only [List.cons_append, checkLoop]
    cases hstep : checkStep lib c fields e <;> simp [ih]

theorem Check_ok_iff (lib : GoLib) (c : Config) (query : SyntaxQuery) (q : Query) :
    Check lib c query = .ok q ↔
      q.Syntax = query ∧ checkLoop lib c query.Expr GoMap.empty = .ok q.Fields := by
  unfold Check
  cases h : checkLoop lib c query.Expr GoMap.empty with
  | ok fields =>
    obtain ⟨s, f⟩ := q
    simp only [Res.ok.injEq, Query.mk.injEq]
    constructor
    · rintro ⟨h1, h2⟩; exact ⟨h1.symm, h2⟩
    · rintro ⟨h1, h2⟩; exact ⟨h1.symm, h2⟩
  | error err => simp
  | panic => simp

theorem Check_error_iff (lib : GoLib) (c : Config) (query : SyntaxQuery) (te : TypeError) :
    Check lib c query = .error te ↔
      checkLoop lib c query.Expr GoMap.empty = .error te := by
  unfold Check
  cases h : checkLoop lib c query.Expr GoMap.empty <;> simp

theorem checkLoop_error_iff (lib : GoLib) (c : Config) (l : List Expr)
    (fields : GoMap (List Value)) (te : TypeError) :
    checkLoop lib c l fields = .error te ↔
      ∃ pre e post fields', l = pre ++ e :: post ∧
        checkLoop lib c pre fields = .ok fields' ∧
        checkStep lib c fields' e = .error te := by
  constructor
  · intro h
    induction l generalizing fields with
    | nil => simp [checkLoop] at h
    | cons e t ih =>
      simp only [checkLoop] at h
      cases hstep : checkStep lib c fields e with
      | ok f2 =>
        rw [hstep] at h
        obtain ⟨pre, e2, post, f3, hl, hpre, hs⟩ := ih f2 h
        refine ⟨e :: pre, e2, post, f3, by simp [hl], ?_, hs⟩
        simp [checkLoop, hstep, hpre]
      | error err =>
        rw [hstep] at h
        simp at h; subst h
        exact ⟨[], e, t, fields, rfl, rfl, hstep⟩
      | panic => rw [hstep] at h; simp at h
  · rintro ⟨pre, e, post, f2, hl, hpre, hs⟩
    subst hl
    rw [checkLoop_append, hpre]
    simp [checkLoop, hs]

/-- The loop keeps the typed-query invariant. -/
theorem checkStep_invariant (lib : GoLib) (c : Config) (fields fields' : GoMap (List Value))
    (e : Expr) (hstep : checkStep lib c fields e = .ok fields')
    (hkeys : ∀ k ∈ fields.keys, (c.FieldTypes.get k).isSome = true)
    (hsing : ∀ k ft, c.FieldTypes.get k = some ft → ft.Singular = true →
      (fields.getSlice k).length ≤ 1) :
    (∀ k ∈ fields'.keys, (c.FieldTypes.get k).isSome = true) ∧
    (∀ k ft, c.FieldTypes.get k = some ft → ft.Singular = true →
      (fields'.getSlice k).length ≤ 1) := by
  unfold checkStep at hstep
  split at hstep
  · simp at hstep
  · simp at hstep
  · rename_i f ft v hexpr
    have hget := checkExpr_ok_fieldType lib c e f ft v hexpr
    split_ifs at hstep with hdup
    simp only [Res.ok.injEq] at hstep
    subst hstep
    constructor
    · intro k hk
      rcases (GoMap.mem_keys_set _ _ _ _).1 hk with h | h
      · subst h; simp [hget]
      · exact hkeys k h
    · intro k ft2 hk hs
      by_cases hkf : f = k
      · subst hkf
        rw [GoMap.getSlice_set_same]
        rw [hget] at hk
        simp only [Option.some.injEq] at hk
        subst hk
        simp only [hs, Bool.true_and, decide_eq_true_eq, not_le, Nat.lt_one_iff] at hdup
        simp [hdup]
      · rw [GoMap.getSlice_set_other _ _ _ _ hkf]
        exact hsing k ft2 hk hs

theorem checkLoop_invariant (lib : GoLib) (c : Config) (l : List Expr)
    (fields fields' : GoMap (List Value))
    (hloop : checkLoop lib c l fields = .ok fields')
    (hkeys : ∀ k ∈ fields.keys, (c.FieldTypes.get k).isSome = true)
    (hsing : ∀ k ft, c.FieldTypes.get k = some ft → ft.Singular = true →
      (fields.getSlice k).length ≤ 1) :
    (∀ k ∈ fields'.keys, (c.FieldTypes.get k).isSome = true) ∧
    (∀ k ft, c.FieldTypes.get k = some ft → ft.Singular = true →
      (fields'.getSlice k).length ≤ 1) := by
  induction l generalizing fields with
  | nil =>
    simp only [checkLoop, Res.ok.injEq] at hloop
    subst hloop
    exact ⟨hkeys, hsing⟩
  | cons e t ih =>
    simp only [checkLoop] at hloop
    cases hstep : checkStep lib c fields e with
    | ok f2 =>
      rw [hstep] at hloop
      obtain ⟨h1, h2⟩ := checkStep_invariant lib c fields f2 e hstep hkeys hsing
      exact ih f2 hloop h1 h2
    | error err => rw [hstep] at hloop; simp at hloop
    | panic => rw [hstep] at hloop; simp at hloop

/-- The loop over expressions that all check and repeat no singular field succeeds, and
a field holds a value afterwards exactly if it did before or one of the expressions
resolves to it. -/
theorem checkLoop_no_repeat (lib : GoLib) (c : Config) (l : List Expr)
    (fields : GoMap (List Value))
    (hall : ∀ e ∈ l, ∃ r, checkExpr lib c e = .ok r)
    (hpw : l.Pairwise (fun x y => ∀ rx ry, checkExpr lib c x = .ok rx →
      checkExpr lib c y = .ok ry → rx.1 = ry.1 → ry.2.1.Singular = false))
    (hacc : ∀ e ∈ l, ∀ r, checkExpr lib c e = .ok r → r.2.1.Singular = true →
      (fields.getSlice r.1).length = 0) :
    ∃ fields', checkLoop lib c l fields = .ok fields' ∧
      ∀ k, 1 ≤ (fields'.getSlice k).length ↔
        (1 ≤ (fields.getSlice k).length ∨ ∃ e ∈ l, ∃ r, checkExpr lib c e = .ok r ∧ r.1 = k) := by
  induction l generalizing fields with
  | nil => exact ⟨fields, rfl, by simp⟩
  | cons e t ih =>
    obtain ⟨⟨f, ft, v⟩, hr⟩ := hall e (List.mem_cons_self _ _)
    have hnodup : (ft.Singular && decide (1 ≤ (fields.getSlice f).length)) = false := by
      cases hs : ft.Singular
      · simp
      · have := hacc e (List.mem_cons_self _ _) (f, ft, v) hr hs
        simp at this
        simp [this]
    have hstep : checkStep lib c fields e =
        .ok (fields.set f (fields.getSlice f ++ [v])) := by
      simp only [checkStep, hr, hnodup]
      simp
    rw [List.pairwise_cons] at hpw
    obtain ⟨f2, hloop, hiff⟩ := ih (fields.set f (fields.getSlice f ++ [v]))
      (fun e' he' => hall e' (List.mem_cons_of_mem _ he')) hpw.2
      (by
        intro e' he' r' hr' hs'
        by_cases hf : f = r'.1
        · have := hpw.1 e' he' (f, ft, v) r' hr hr' hf
          rw [this] at hs'; simp at hs'
        · rw [GoMap.getSlice_set_other _ _ _ _ hf]
          exact hacc e' (List.mem_cons_of_mem _ he') r' hr' hs')
    refine ⟨f2, by simp [checkLoop, hstep, hloop], ?_⟩
    intro k
    rw [hiff k]
    by_cases hk : f = k
    · subst hk
      rw [GoMap.getSlice_set_same]
      constructor
      · intro _
        exact Or.inr ⟨e, List.mem_cons_self _ _, (f, ft, v), hr, rfl⟩
      · intro _
        left; simp
    · rw [GoMap.getSlice_set_other _ _ _ _ hk]
      constructor
      · rintro (h | ⟨e', he', r', hr', hk'⟩)
        · exact Or.inl h
        · exact Or.inr ⟨e', List.mem_cons_of_mem _ he', r', hr', hk'⟩
      · rintro (h | ⟨e', he', r', hr', hk'⟩)
        · exact Or.inl h
        · rcases List.mem_cons.1 he' with h | h
          · subst h
            rw [hr] at hr'
            simp only [Res.ok.injEq] at hr'
            subst hr'
            exact absurd hk' hk
          · exact Or.inr ⟨e', h, r', hr', hk'⟩

/-! ## Properties of the checker -/

/-- C1: in an expression list whose expressions each check on their own, if `e1` and a
later `e2` resolve to the same field, the descriptor is singular, and no singular field
is repeated among the expressions before `e2`, then `Check` fails with the
duplicate-field error at the position of `e2`, wherever the two stand in the list. -/
theorem Check_duplicateField (lib : GoLib) (c : Config) (A B C : List Expr) (e1 e2 : Expr)
    (f : GoString) (ft1 ft2 : FieldType) (v1 v2 : Value)
    (hall : ∀ e ∈ A ++ e1 :: B ++ e2 :: C, ∃ r, checkExpr lib c e = .ok r)
    (h1 : checkExpr lib c e1 = .ok (f, ft1, v1))
    (h2 : checkExpr lib c e2 = .ok (f, ft2, v2))
    (hsing : ft2.Singular = true)
    (hpw : (A ++ e1 :: B).Pairwise (fun x y => ∀ rx ry, checkExpr lib c x = .ok rx →
      checkExpr lib c y = .ok ry → rx.1 = ry.1 → ry.2.1.Singular = false)) :
    Check lib c ⟨A ++ e1 :: B ++ e2 :: C⟩ = .error ⟨e2.Pos, .duplicateField f⟩ := by
  rw [Check_error_iff, checkLoop_error_iff]
  obtain ⟨fields', hloop, hiff⟩ := checkLoop_no_repeat lib c (A ++ e1 :: B) GoMap.empty
    (fun e he => hall e (by
      simp only [List.append_assoc, List.cons_append, List.mem_append, List.mem_cons] at he ⊢
      tauto))
    hpw (fun _ _ _ _ _ => by simp [GoMap.getSlice_empty])
  refine ⟨A ++ e1 :: B, e2, C, fields', by simp, hloop, ?_⟩
  have hlen : 1 ≤ (fields'.getSlice f).length :=
    (hiff f).2 (Or.inr ⟨e1, by simp, (f, ft1, v1), h1, rfl⟩)
  simp [checkStep, h2, hsing, hlen]

/-- C2: when `Check` succeeds, every key of the result's `Fields` is a key of the
configuration's `FieldTypes`, and every field whose descriptor is singular holds at most
one value. -/
theorem Check_invariant (lib : GoLib) (c : Config) (query : SyntaxQuery) (q : Query)
    (h : Check lib c query = .ok q) :
    (∀ k ∈ q.Fields.keys, (c.FieldTypes.get k).isSome = true) ∧
    (∀ k ft, c.FieldTypes.get k = some ft → ft.Singular = true →
      (q.Fields.getSlice k).length ≤ 1) := by
  obtain ⟨_, hloop⟩ := (Check_ok_iff lib c query q).1 h
  exact checkLoop_invariant lib c query.Expr GoMap.empty q.Fields hloop
    (by simp [GoMap.keys, GoMap.empty]) (by simp [GoMap.getSlice_empty])

/-- C3: if the expressions before `e` check (no error, no duplicate) and the field name
of `e` is a key of neither the alias mapping nor the field-type mapping, `Check` fails
with the unrecognized-field error at the position of `e`. -/
theorem Check_unrecognizedField (lib : GoLib) (c : Config) (pre post : List Expr) (e : Expr)
    (q : Query) (hpre : Check lib c ⟨pre⟩ = .ok q)
    (halias : c.FieldAliases.get e.Field = none)
    (htypes : c.FieldTypes.get e.Field = none) :
    Check lib c ⟨pre ++ e :: post⟩ = .error ⟨e.Pos, .unrecognizedField e.Field⟩ := by
  rw [Check_error_iff, checkLoop_error_iff]
  refine ⟨pre, e, post, q.Fields, rfl, ((Check_ok_iff lib c ⟨pre⟩ q).1 hpre).2, ?_⟩
  simp [checkStep, checkExpr, resolveField, halias, htypes]

/-- C4 (as amended): for an alias `a` mapped to `cn`, where `cn` is not itself mapped to
a different name by the alias mapping, `resolveField` returns the same name, descriptor
and error for `a` as for `cn`. -/
theorem resolveField_alias (c : Config) (a cn : GoString) (isNot : Bool)
    (ha : c.FieldAliases.get a = some cn)
    (hcn : c.FieldAliases.get cn = none ∨ c.FieldAliases.get cn = some cn) :
    resolveField c a isNot = resolveField c cn isNot := by
  unfold resolveField
  rcases hcn with h | h <;> simp [ha, h]

/-- The loop body fails exactly when the expression fails to check (field resolution or
value coercion) or passes and repeats a singular field. -/
theorem checkStep_error_iff (lib : GoLib) (c : Config) (fields : GoMap (List Value))
    (e : Expr) (te : TypeError) :
    checkStep lib c fields e = .error te ↔
      checkExpr lib c e = .error te ∨
      ∃ f ft v, checkExpr lib c e = .ok (f, ft, v) ∧ ft.Singular = true ∧
        1 ≤ (fields.getSlice f).length ∧ te = ⟨e.Pos, .duplicateField f⟩ := by
  unfold checkStep
  cases hexpr : checkExpr lib c e with
  | error err => simp
  | panic => simp
  | ok r =>
    obtain ⟨f, ft, v⟩ := r
    simp only [reduceCtorEq, false_or, Res.ok.injEq, Prod.mk.injEq]
    by_cases hdup : (ft.Singular && decide (1 ≤ (fields.getSlice f).length)) = true
    · simp only [hdup, if_true, Res.error.injEq]
      simp only [Bool.and_eq_true, decide_eq_true_eq] at hdup
      constructor
      · intro h
        exact ⟨f, ft, v, ⟨rfl, rfl, rfl⟩, hdup.1, hdup.2, h.symm⟩
      · rintro ⟨f2, ft2, v2, ⟨h1, h2, h3⟩, _, _, hte⟩
        subst h1
        exact hte.symm
    · simp only [hdup, Bool.false_eq_true, if_false, reduceCtorEq, false_iff, not_exists,
        not_and]
      rintro f2 ft2 v2 ⟨h1, h2, h3⟩ hs hlen
      subst h1 h2
      simp [hs, hlen] at hdup

/-- C10: `Check` fails with the error `te` exactly when the list splits as
`pre ++ e :: post` where `Check` succeeds on `pre` (so `e` is the first expression to
fail) and the loop body fails with `te` on `e`, whatever `post` is; the loop body fails
exactly on a failed field resolution or coercion of `e` or on a repeated singular field,
and its error carries the position of `e`. An error result holds no query. -/
theorem Check_first_error (lib : GoLib) (c : Config) (l : List Expr) (te : TypeError) :
    (Check lib c ⟨l⟩ = .error te ↔
      ∃ pre e post q, l = pre ++ e :: post ∧ Check lib c ⟨pre⟩ = .ok q ∧
        checkStep lib c q.Fields e = .error te) ∧
    (∀ fields e, checkStep lib c fields e = .error te ↔
      checkExpr lib c e = .error te ∨
      ∃ f ft v, checkExpr lib c e = .ok (f, ft, v) ∧ ft.Singular = true ∧
        1 ≤ (fields.getSlice f).length ∧ te = ⟨e.Pos, .duplicateField f⟩) ∧
    (∀ fields e, checkStep lib c fields e = .error te → te.Pos = e.Pos) := by
  refine ⟨?_, fun fields e => checkStep_error_iff lib c fields e te,
    fun fields e h => checkStep_error_pos lib c fields e te h⟩
  rw [Check_error_iff, checkLoop_error_iff]
  constructor
  · rintro ⟨pre, e, post, f2, hl, hpre, hs⟩
    exact ⟨pre, e, post, ⟨⟨pre⟩, f2⟩, hl, (Check_ok_iff _ _ _ _).2 ⟨rfl, hpre⟩, hs⟩
  · rintro ⟨pre, e, post, q, hl, hpre, hs⟩
    exact ⟨pre, e, post, q.Fields, hl, ((Check_ok_iff _ _ _ _).1 hpre).2, hs⟩

/-- The first-error theorem at `count:yes r:foo lang:go count:no`: the first two
expressions check, the third fails, and `Check` returns its error whatever follows. -/
theorem Check_first_error_witness :
    Check sampleLib sampleConfig ⟨[exprCountYes, exprRepoFoo]⟩ = .ok sampleTyped ∧
    checkStep sampleLib sampleConfig sampleTyped.Fields exprLangGo =
      .error ⟨20, .unrecognizedField (str "lang")⟩ ∧
    Check sampleLib sampleConfig ⟨[exprCountYes, exprRepoFoo, exprLangGo, exprCountNo]⟩ =
      .error ⟨20, .unrecognizedField (str "lang")⟩ ∧
    Check sampleLib sampleConfig ⟨[exprCountYes, exprRepoFoo, exprLangGo]⟩ =
      .error ⟨20, .unrecognizedField (str "lang")⟩ := by
  have h1 : Check sampleLib sampleConfig ⟨[exprCountYes, exprRepoFoo]⟩ = .ok sampleTyped := by
    decide
  have h2 : checkStep sampleLib sampleConfig sampleTyped.Fields exprLangGo =
      .error ⟨20, .unrecognizedField (str "lang")⟩ := by decide
  exact ⟨h1, h2,
    (Check_first_error sampleLib sampleConfig _ _).1.2
      ⟨[exprCountYes, exprRepoFoo], exprLangGo, [exprCountNo], sampleTyped, rfl, h1, h2⟩,
    (Check_first_error sampleLib sampleConfig _ _).1.2
      ⟨[exprCountYes, exprRepoFoo], exprLangGo, [], sampleTyped, rfl, h1, h2⟩⟩

/-- The duplicate-field theorem at `count:yes r:foo count:no r:foo`. -/
theorem Check_duplicateField_witness :
    Check sampleLib sampleConfig ⟨[exprCountYes, exprRepoFoo, exprCountNo, exprRepoFoo]⟩ =
      .error ⟨10, .duplicateField (str "count")⟩ := by
  have hyes : checkExpr sampleLib sampleConfig exprCountYes =
      .ok (str "count", ⟨.BoolType, .NoType, true, false, none⟩,
        ⟨exprCountYes, none, none, some true⟩) := rfl
  have hno : checkExpr sampleLib sampleConfig exprCountNo =
      .ok (str "count", ⟨.BoolType, .NoType, true, false, none⟩,
        ⟨exprCountNo, none, none, some false⟩) := rfl
  have hfoo : checkExpr sampleLib sampleConfig exprRepoFoo =
      .ok (str "repo", ⟨.RegexpType, .StringType, false, true, none⟩,
        ⟨exprRepoFoo, none, some ⟨str "foo"⟩, none⟩) := rfl
  refine Check_duplicateField sampleLib sampleConfig [] [exprRepoFoo] [exprRepoFoo]
    exprCountYes exprCountNo (str "count") _ _ _ _ ?_ hyes hno rfl ?_
  · intro e he
    simp only [List.nil_append, List.cons_append, List.mem_cons, List.mem_singleton,
      List.not_mem_nil, or_false] at he
    rcases he with h | h | h | h <;> subst h
    · exact ⟨_, hyes⟩
    · exact ⟨_, hfoo⟩
    · exact ⟨_, hno⟩
    · exact ⟨_, hfoo⟩
  · simp only [List.nil_append, List.pairwise_cons, List.mem_singleton, List.not_mem_nil,
      forall_eq, List.Pairwise.nil, and_true, false_implies, implies_true]
    intro rx ry hx hy hxy
    rw [hfoo] at hy
    simp only [Res.ok.injEq] at hy
    rw [← hy]

/-- The invariant theorem at `count:yes r:foo`. -/
theorem Check_invariant_witness :
    Check sampleLib sampleConfig ⟨[exprCountYes, exprRepoFoo]⟩ = .ok sampleTyped ∧
    (∀ k ∈ sampleTyped.Fields.keys, (sampleConfig.FieldTypes.get k).isSome = true) ∧
    (∀ k ft, sampleConfig.FieldTypes.get k = some ft → ft.Singular = true →
      (sampleTyped.Fields.getSlice k).length ≤ 1) :=
  ⟨by decide, Check_invariant sampleLib sampleConfig ⟨[exprCountYes, exprRepoFoo]⟩
    sampleTyped (by decide)⟩

/-- The unrecognized-field theorem at `count:yes r:foo lang:go count:no`. -/
theorem Check_unrecognizedField_witness :
    Check sampleLib sampleConfig ⟨[exprCountYes, exprRepoFoo, exprLangGo, exprCountNo]⟩ =
      .error ⟨20, .unrecognizedField (str "lang")⟩ :=
  Check_unrecognizedField sampleLib sampleConfig [exprCountYes, exprRepoFoo] [exprCountNo]
    exprLangGo sampleTyped (by decide) (by decide) rfl

/-- The alias theorem at the alias `r` of `repo`. -/
theorem resolveField_alias_witness :
    sampleConfig.FieldAliases.get (str "r") = some (str "repo") ∧
    resolveField sampleConfig (str "r") true = resolveField sampleConfig (str "repo") true :=
  ⟨by decide, resolveField_alias sampleConfig (str "r") (str "repo") true (by decide)
    (Or.inl (by decide))⟩

/-- C4 (as stated) fails: in `chainConfig` the alias `g` is mapped to `group`, yet
resolving `g` reports `group` as unrecognized while resolving `group` itself succeeds
with the field `repogroup`. -/
theorem resolveField_alias_chain :
    chainConfig.FieldAliases.get (str "g") = some (str "group") ∧
    (resolveField chainConfig (str "g") false).2.2 = some (.unrecognizedField (str "group")) ∧
    (resolveField chainConfig (str "group") false).1 = str "repogroup" ∧
    (resolveField chainConfig (str "group") false).2.2 = none ∧
    resolveField chainConfig (str "g") false ≠ resolveField chainConfig (str "group") false := by
  refine ⟨by decide, by decide, by decide, by decide, ?_⟩
  intro h
  have h2 := congrArg (fun r => r.2.2) h
  revert h2
  decide

/-- C9: `parseBool` is case-sensitive and accepts a fixed vocabulary: it returns true
exactly for y, Y, yes, YES, Yes, 1, t, T, true, TRUE, True, false exactly for n, N, no,
NO, No, 0, f, F, false, FALSE, False, and fails with the invalid-boolean error naming
the text for every other string, such as `maybe` and `yEs`. -/
theorem parseBool_vocabulary (s : GoString) :
    (parseBool s = .ok true ↔
      s ∈ [str "y", str "Y", str "yes", str "YES", str "Yes",
           str "1", str "t", str "T", str "true", str "TRUE", str "True"]) ∧
    (parseBool s = .ok false ↔
      s ∈ [str "n", str "N", str "no", str "NO", str "No",
           str "0", str "f", str "F", str "false", str "FALSE", str "False"]) ∧
    (parseBool s = .error (.invalidBoolean s) ↔
      s ∉ [str "y", str "Y", str "yes", str "YES", str "Yes",
           str "1", str "t", str "T", str "true", str "TRUE", str "True",
           str "n", str "N", str "no", str "NO", str "No",
           str "0", str "f", str "F", str "false", str "FALSE", str "False"]) ∧
    parseBool (str "maybe") = .error (.invalidBoolean (str "maybe")) ∧
    parseBool (str "yEs") = .error (.invalidBoolean (str "yEs")) := by
  refine ⟨?_, ?_, ?_, by decide, by decide⟩
  all_goals
    unfold parseBool strconvParseBool
    simp only [List.mem_cons, List.mem_singleton, List.not_mem_nil, or_false]
    split_ifs with h1 h2 h3 h4
  all_goals
    first
    | (rcases h1 with h | h | h | h | h <;> subst h <;> decide)
    | (rcases h2 with h | h | h | h | h <;> subst h <;> decide)
    | (rcases h3 with h | h | h | h | h | h <;> subst h <;> decide)
    | (rcases h4 with h | h | h | h | h | h <;> subst h <;> decide)
    | (simp only [not_or] at h1 h2 h3 h4; simp [h1, h2, h3, h4])

/-! ## Regexp repair -/

theorem fixupRegexpCompileError_corrected (lib : GoLib) (value err corrected : GoString)
    (h : correctedValue value err = some corrected) :
    fixupRegexpCompileError lib value err = Res.ofExcept (lib.compile corrected) := by
  unfold correctedValue at h
  unfold fixupRegexpCompileError
  cases hm : firstErrorMatch err escapeErrorRegexps with
  | none => simp [hm] at h
  | some mi =>
    simp only [hm] at h ⊢
    cases hb : err.get? mi.2 with
    | none => rw [hb] at h; simp at h
    | some b =>
      simp only [hb] at h ⊢
      split_ifs at h ⊢ with hast
      · simp only [Option.some.injEq] at h
        rw [h]
      · cases hr : unmatchedOpeningRuneRegexps (flipRune (b.toNat : Int)) with
        | none => rw [hr] at h; simp at h
        | some r =>
          simp only [hr] at h ⊢
          cases hf : r.find value 0 with
          | none => rw [hf] at h; simp at h
          | some m =>
            simp only [hf, Option.some.injEq] at h ⊢
            rw [h]

/-- C5 (the code panics): on the message `regexp.Compile` gives for the pattern `+`,
whatever the library does afterwards, `fixupRegexpCompileError` finds the
repetition-operator family, takes `+` as the rune to escape, looks it up in
`unmatchedOpeningRuneRegexps`, gets the nil pattern and panics; so does `compileRegexp`
on `+`. -/
theorem fixupRegexpCompileError_plus_panics (lib : GoLib) :
    firstErrorMatch (str "error parsing regexp: missing argument to repetition operator: `+`")
      escapeErrorRegexps = some (22, 64) ∧
    unmatchedOpeningRuneRegexps (flipRune 43) = none ∧
    fixupRegexpCompileError lib (str "+")
      (str "error parsing regexp: missing argument to repetition operator: `+`") = .panic ∧
    compileRegexp sampleLib (str "+") = .panic := by
  refine ⟨by decide, by decide, ?_, by decide⟩
  rfl

/-- C6 (as stated) fails: the first compilation of `((` fails with a missing-closing
diagnostic, the retry compiles `\((` and fails too, and `compileRegexp` returns the
diagnostic of the retry, which differs from the first one. -/
theorem compileRegexp_returns_retry_error :
    sampleLib.compile (preprocessRegexpQuery (str "((")) =
      .error (str "error parsing regexp: missing closing ): `((`") ∧
    correctedValue (preprocessRegexpQuery (str "(("))
      (str "error parsing regexp: missing closing ): `((`") = some (str "\\((") ∧
    sampleLib.compile (str "\\((") =
      .error (str "error parsing regexp: missing closing ): `\\((`") ∧
    compileRegexp sampleLib (str "((") =
      .error (str "error parsing regexp: missing closing ): `\\((`") ∧
    compileRegexp sampleLib (str "((") ≠
      .error (str "error parsing regexp: missing closing ): `((`") := by
  decide

/-- C6 (as amended): when the first compilation fails with a diagnostic of a repairable
family and the retry on the corrected pattern fails too, `compileRegexp` returns the
error of the retry. -/
theorem compileRegexp_retry_error (lib : GoLib) (value e1 e2 corrected : GoString)
    (h1 : lib.compile (preprocessRegexpQuery value) = .error e1)
    (hc : correctedValue (preprocessRegexpQuery value) e1 = some corrected)
    (h2 : lib.compile corrected = .error e2) :
    compileRegexp lib value = .error e2 := by
  unfold compileRegexp
  simp only [h1]
  rw [fixupRegexpCompileError_corrected lib _ _ _ hc, h2]
  rfl

/-- The retry theorem at the pattern `((`. -/
theorem compileRegexp_retry_error_witness :
    compileRegexp sampleLib (str "((") =
      .error (str "error parsing regexp: missing closing ): `\\((`") :=
  compileRegexp_retry_error sampleLib (str "((")
    (str "error parsing regexp: missing closing ): `((`")
    (str "error parsing regexp: missing closing ): `\\((`") (str "\\((")
    (by decide) (by decide) (by decide)

/-! ## Preprocessing -/

theorem dollarTail_split (s : GoString) (h : dollarTail s = true) :
    ∃ t, s = 36 :: t ∧ (10 : UInt8) ∉ t := by
  cases s with
  | nil => simp [dollarTail] at h
  | cons b t =>
    simp only [dollarTail, Bool.and_eq_true, decide_eq_true_eq, Bool.not_eq_true',
      List.contains_eq_any_beq, List.any_eq_false, beq_iff_eq] at h
    refine ⟨t, by rw [h.1], ?_⟩
    intro hmem
    exact h.2 10 hmem rfl

theorem dollarMatchHere_split (s : GoString) (h : dollarMatchHere s = true) :
    ∃ pre post, s = pre ++ 36 :: post ∧ (10 : UInt8) ∉ post := by
  unfold dollarMatchHere at h
  simp only [Bool.or_eq_true, Bool.and_eq_true] at h
  rcases h with ⟨_, h⟩ | h
  · obtain ⟨t, ht, hn⟩ := dollarTail_split _ h
    refine ⟨s.take (runeWidth s), t, ?_, hn⟩
    rw [← ht, List.take_append_drop]
  · obtain ⟨t, ht, hn⟩ := dollarTail_split _ h
    exact ⟨[], t, by simpa using ht, hn⟩

theorem dollarSearch_split (skip : Nat) (s : GoString) (pos i : Nat)
    (h : dollarSearch skip s pos = some i) :
    ∃ pre post, s = pre ++ 36 :: post ∧ (10 : UInt8) ∉ post := by
  induction s generalizing skip pos with
  | nil => simp [dollarSearch] at h
  | cons b t ih =>
    cases skip with
    | zero =>
      simp only [dollarSearch] at h
      split_ifs at h with hm
      · exact dollarMatchHere_split _ hm
      · obtain ⟨pre, post, hs, hn⟩ := ih _ _ h
        exact ⟨b :: pre, post, by simp [hs], hn⟩
    | succ k =>
      simp only [dollarSearch] at h
      obtain ⟨pre, post, hs, hn⟩ := ih _ _ h
      exact ⟨b :: pre, post, by simp [hs], hn⟩

/-- C7 (as stated) fails: `a$`, whose only dollar sign is its last character, contains
no unescaped dollar sign before its end, yet it is changed: it becomes `a\$`. -/
theorem preprocessRegexpQuery_changes_final_dollar :
    hasInnerUnescapedDollar (str "a$") = false ∧
    preprocessRegexpQuery (str "a$") = str "a\\$" ∧
    preprocessRegexpQuery (str "a$") ≠ str "a$" := by
  decide

/-- C7 (as amended): a pattern that contains no dollar sign is returned unchanged. -/
theorem preprocessRegexpQuery_unchanged (v : GoString) (h : (36 : UInt8) ∉ v) :
    preprocessRegexpQuery v = v := by
  unfold preprocessRegexpQuery unescapedDollarSignIndex
  cases hs : dollarSearch 0 v 0 with
  | none => simp only [hs]
  | some i =>
    obtain ⟨pre, post, hv, _⟩ := dollarSearch_split 0 v 0 i hs
    exact absurd (by rw [hv]; simp) h

/-- The unchanged-pattern theorem at `a(b`. -/
theorem preprocessRegexpQuery_unchanged_witness :
    preprocessRegexpQuery (str "a(b") = str "a(b" :=
  preprocessRegexpQuery_unchanged (str "a(b") (by decide)

/-- C8 (the code inserts the backslash at the wrong byte): in `é$b` the dollar sign is
unescaped and not last, and the character before it takes two bytes; the match starts
at offset 0, the offset is adjusted by one byte only, and the backslash lands between
the two bytes of `é`, leaving the dollar sign unescaped. -/
theorem preprocessRegexpQuery_splits_rune :
    str "é$b" = [0xC3, 0xA9, 36, 98] ∧
    hasInnerUnescapedDollar (str "é$b") = true ∧
    unescapedDollarSignIndex (str "é$b") = some 0 ∧
    preprocessRegexpQuery (str "é$b") = [0xC3, 92, 0xA9, 36, 98] ∧
    preprocessRegexpQuery (str "é$b") ≠ str "é\\$b" ∧
    preprocessRegexpQuery (str "a$b") = str "a\\$b" := by
  decide

/-! ## Preprocessing when the preceding character is one byte -/

theorem contPrefix_zero (s : GoString) : contPrefix 0 s := by
  simp [contPrefix]

theorem contPrefix_succ (k : Nat) (b : UInt8) (t : GoString) (h : contPrefix (k + 1) (b :: t)) :
    128 ≤ b ∧ contPrefix k t := by
  obtain ⟨h1, h2⟩ := h
  simp only [List.length_cons, Nat.add_le_add_iff_right, List.take_succ_cons,
    List.mem_cons, forall_eq_or_imp] at h1 h2
  exact ⟨h2.1, h1, h2.2⟩

theorem contPrefix_one (b1 : UInt8) (t : GoString) (h : 128 ≤ b1) : contPrefix 1 (b1 :: t) := by
  simp [contPrefix, h]

theorem contPrefix_two (b1 b2 : UInt8) (t : GoString) (h1 : 128 ≤ b1) (h2 : 128 ≤ b2) :
    contPrefix 2 (b1 :: b2 :: t) := by
  simp [contPrefix, h1, h2]

theorem contPrefix_three (b1 b2 b3 : UInt8) (t : GoString) (h1 : 128 ≤ b1) (h2 : 128 ≤ b2)
    (h3 : 128 ≤ b3) : contPrefix 3 (b1 :: b2 :: b3 :: t) := by
  simp [contPrefix, h1, h2, h3]

theorem runeWidth_contPrefix (b : UInt8) (t : GoString) :
    contPrefix (runeWidth (b :: t) - 1) t := by
  have e1 : ∀ x : UInt8, (0x80 : UInt8) ≤ x → (128 : UInt8) ≤ x := fun _ h => h
  have e2 : ∀ x : UInt8, (0xA0 : UInt8) ≤ x → (128 : UInt8) ≤ x :=
    fun _ h => UInt8.le_trans (by decide) h
  have e3 : ∀ x : UInt8, (0x90 : UInt8) ≤ x → (128 : UInt8) ≤ x :=
    fun _ h => UInt8.le_trans (by decide) h
  unfold runeWidth
  simp only
  split_ifs
  all_goals first
    | exact contPrefix_zero t
    | (split
       · split_ifs with h
         · simp only [Bool.and_eq_true, decide_eq_true_eq] at h
           first
             | exact contPrefix_one _ _ (by first | exact e1 _ h.1 | exact e2 _ h.1 | exact e3 _ h.1)
             | exact contPrefix_two _ _ _ (by first | exact e1 _ h.1.1 | exact e2 _ h.1.1 | exact e3 _ h.1.1) h.2.1
             | exact contPrefix_three _ _ _ _ (by first | exact e1 _ h.1.1.1 | exact e2 _ h.1.1.1 | exact e3 _ h.1.1.1) h.1.2.1 h.2.1
         · exact contPrefix_zero _
       · exact contPrefix_zero _)

theorem dollarTail_false_of_head (b : UInt8) (t : GoString) (h : b ≠ 36) :
    dollarTail (b :: t) = false := by
  simp [dollarTail, h]

/-- Dropping a stepped-over rune from a text whose first `n + 1` bytes hold no dollar sign
leaves a text that does not start with one, when the bytes stepped over besides the
first are continuation bytes and byte `n` is ASCII. -/
theorem drop_head_ne_dollar (pre : GoString) (b : UInt8) (rest : GoString) (w : Nat)
    (hpre : (36 : UInt8) ∉ pre) (hb : b ≠ 36) (hb128 : b < 128)
    (hcont : contPrefix w (pre ++ b :: rest)) :
    dollarTail ((pre ++ b :: rest).drop w) = false := by
  induction pre generalizing w with
  | nil =>
    cases w with
    | zero => simpa using dollarTail_false_of_head b rest hb
    | succ k =>
      have := (contPrefix_succ k b rest hcont).1
      exact absurd hb128 (UInt8.not_lt.2 this)
  | cons a p ih =>
    simp only [List.mem_cons, not_or] at hpre
    cases w with
    | zero =>
      simpa using dollarTail_false_of_head a _ (Ne.symm hpre.1)
    | succ k =>
      simp only [List.cons_append, List.drop_succ_cons]
      exact ih k hpre.2 (contPrefix_succ k a _ hcont).2

theorem dollarSearch_ascii (pre post : GoString) (b : UInt8) (skip pos : Nat)
    (hpre : (36 : UInt8) ∉ pre) (hpost : (10 : UInt8) ∉ post)
    (hb : b ≠ 36) (hb92 : b ≠ 92) (hb128 : b < 128)
    (hcont : contPrefix skip (pre ++ b :: 36 :: post)) :
    dollarSearch skip (pre ++ b :: 36 :: post) pos = some (pos + pre.length) := by
  induction pre generalizing skip pos with
  | nil =>
    cases skip with
    | zero =>
      have hw : runeWidth (b :: 36 :: post) = 1 := by
        have : b < 0xC2 := UInt8.lt_trans hb128 (by decide)
        simp [runeWidth, this]
      have hm : dollarMatchHere (b :: 36 :: post) = true := by
        simp [dollarMatchHere, hw, dollarTail, hb92, hpost]
      simp [dollarSearch, hm]
    | succ k =>
      have := (contPrefix_succ k b _ hcont).1
      exact absurd hb128 (UInt8.not_lt.2 this)
  | cons a p ih =>
    simp only [List.mem_cons, not_or] at hpre
    cases skip with
    | zero =>
      have hm : dollarMatchHere (a :: (p ++ b :: 36 :: post)) = false := by
        unfold dollarMatchHere
        have h1 : dollarTail (a :: (p ++ b :: 36 :: post)) = false :=
          dollarTail_false_of_head a _ (Ne.symm hpre.1)
        have h2 : dollarTail ((a :: (p ++ b :: 36 :: post)).drop
            (runeWidth (a :: (p ++ b :: 36 :: post)))) = false := by
          have hc := runeWidth_contPrefix a (p ++ b :: 36 :: post)
          cases hw : runeWidth (a :: (p ++ b :: 36 :: post)) with
          | zero => simpa using h1
          | succ k =>
            rw [hw] at hc
            simp only [Nat.add_sub_cancel] at hc
            simp only [List.drop_succ_cons]
            exact drop_head_ne_dollar p b (36 :: post) k hpre.2 hb hb128 hc
        simp [h1, h2]
      rw [List.cons_append]
      show (if dollarMatchHere (a :: (p ++ b :: 36 :: post)) = true then some pos
        else dollarSearch (runeWidth (a :: (p ++ b :: 36 :: post)) - 1)
          (p ++ b :: 36 :: post) (pos + 1)) = _
      rw [hm, ih _ _ hpre.2 (runeWidth_contPrefix a _)]
      simp only [Bool.false_eq_true, if_false, List.length_cons]
      congr 1; omega
    | succ k =>
      rw [List.cons_append]
      show dollarSearch k (p ++ b :: 36 :: post) (pos + 1) = _
      rw [ih _ _ hpre.2 (contPrefix_succ k a _ hcont).2]
      simp only [List.length_cons]
      congr 1; omega

/-- What the preprocessing does when the character before the dollar sign is one byte:
if the first dollar sign of the pattern has no newline after it and is either the first
byte or preceded by an ASCII byte other than a backslash, exactly one backslash is
inserted immediately before it, whether or not it is the last byte. -/
theorem preprocessRegexpQuery_escapes_first_dollar (pre post : GoString)
    (hpre : (36 : UInt8) ∉ pre) (hpost : (10 : UInt8) ∉ post)
    (hlast : pre = [] ∨ ∃ p b, pre = p ++ [b] ∧ b < 128 ∧ b ≠ 92) :
    preprocessRegexpQuery (pre ++ 36 :: post) = pre ++ 92 :: 36 :: post := by
  unfold preprocessRegexpQuery unescapedDollarSignIndex
  rcases hlast with h | ⟨p, b, h, hb128, hb92⟩
  · subst h
    have hm : dollarMatchHere (36 :: post) = true := by
      simp [dollarMatchHere, dollarTail, hpost]
    simp [dollarSearch, hm]
  · subst h
    simp only [List.mem_append, List.mem_singleton, not_or] at hpre
    have hs := dollarSearch_ascii p post b 0 0 hpre.1 hpost (Ne.symm hpre.2) hb92 hb128
      (contPrefix_zero _)
    simp only [List.append_assoc, List.singleton_append, hs, Nat.zero_add]
    have hg : (p ++ b :: 36 :: post).get? p.length = some b := by
      rw [List.get?_eq_getElem?, List.getElem?_append_right (le_refl _)]
      simp
    simp only [hg]
    have hne : (some b != some (36 : UInt8)) = true := by
      simp [Ne.symm hpre.2]
    simp only [hne, if_true]
    have ht : (p ++ b :: 36 :: post).take (p.length + 1) = p ++ [b] := by
      rw [List.take_append_eq_append_take]
      simp
    have hd : (p ++ b :: 36 :: post).drop (p.length + 1) = 36 :: post := by
      rw [List.drop_append_eq_append_drop]
      simp
    rw [ht, hd]
    simp

/-- The escaping theorem at `a$b`. -/
theorem preprocessRegexpQuery_escapes_first_dollar_example :
    preprocessRegexpQuery (str "a$b") = str "a\\$b" := by
  have h := preprocessRegexpQuery_escapes_first_dollar [97] [98] (by decide) (by decide)
    (Or.inr ⟨[], 97, rfl, by decide, by decide⟩)
  exact h

/-! ## Negation, feature flags and delimiters -/

theorem resolveField_canonical (c : Config) (fieldName : GoString) (isNot : Bool) :
    resolveField c fieldName isNot =
      match c.FieldTypes.get (canonicalName c fieldName) with
      | none => ([], FieldType.zero, some (.unrecognizedField (canonicalName c fieldName)))
      | some typ =>
        if !typ.enabled then
          ([], typ, some (.featureFlagDisabled (canonicalName c fieldName)))
        else if isNot && !typ.Negatable then
          if canonicalName c fieldName = [] then ([], typ, some .negatedTerm)
          else ([], typ, some (.negationUnsupported (canonicalName c fieldName)))
        else (canonicalName c fieldName, typ, none) := by
  have hcn : canonicalName c fieldName =
      (match c.FieldAliases.get fieldName with
        | some resolved => resolved
        | none => fieldName) := by
    unfold canonicalName
    cases c.FieldAliases.get fieldName <;> rfl
  unfold resolveField
  simp only [← hcn]
  cases hget : c.FieldTypes.get (canonicalName c fieldName) with
  | none => rfl
  | some typ =>
    have hb : (match typ.FeatureFlagEnabled with
        | some enabled => !(enabled ())
        | none => false) = (!typ.enabled) := by
      unfold FieldType.enabled
      cases typ.FeatureFlagEnabled <;> rfl
    simp only [hb]

/-- C19 (as stated) fails: `flipRune` maps `}` (125) to `{` (123), not to `[` (91). -/
theorem flipRune_closing_brace :
    flipRune 125 = 123 ∧ flipRune 125 ≠ 91 := by
  decide

/-- C19 (as amended): `flipRune` maps `)` to `(`, `]` to `[` and `}` to `{`, and returns
every other rune unchanged. -/
theorem flipRune_spec (r : Int) :
    flipRune r = if r = 41 then 40 else if r = 93 then 91 else if r = 125 then 123 else r := by
  unfold flipRune
  split_ifs <;> omega

/-- C13 (as stated) fails: in `bareAliasConfig` the name `any` passed in is not empty,
yet the negated expression is rejected with the bare-pattern message, because `any` is
an alias of the empty field name. -/
theorem resolveField_negated_alias_of_bare :
    str "any" ≠ [] ∧
    (resolveField bareAliasConfig (str "any") true).2.2 = some .negatedTerm ∧
    (resolveField bareAliasConfig (str "any") true).2.2 ≠
      some (.negationUnsupported (str "any")) := by
  decide

/-- C13 (as amended): when `resolveField` rejects a negated expression because the
descriptor found is enabled and not negatable, the error is the bare-pattern message
exactly when the canonical name (the alias target, or the name passed in when it is no
alias) is empty, and the named-field message for the canonical name exactly when that
name is not empty. -/
theorem resolveField_negation_message (c : Config) (fieldName : GoString) (typ : FieldType)
    (hget : c.FieldTypes.get (canonicalName c fieldName) = some typ)
    (hen : typ.enabled = true) (hneg : typ.Negatable = false) :
    ((resolveField c fieldName true).2.2 = some .negatedTerm ↔
      canonicalName c fieldName = []) ∧
    ((resolveField c fieldName true).2.2 =
        some (.negationUnsupported (canonicalName c fieldName)) ↔
      canonicalName c fieldName ≠ []) := by
  rw [resolveField_canonical]
  simp only [hget, hen, hneg]
  by_cases h : canonicalName c fieldName = [] <;> simp [h]

/-- The negation-message theorem at the alias `any` of the bare-pattern field and at the
field `count`. -/
theorem resolveField_negation_message_witness :
    ((resolveField bareAliasConfig (str "any") true).2.2 = some .negatedTerm ↔
      canonicalName bareAliasConfig (str "any") = []) ∧
    ((resolveField sampleConfig (str "count") true).2.2 =
        some (.negationUnsupported (canonicalName sampleConfig (str "count"))) ↔
      canonicalName sampleConfig (str "count") ≠ []) :=
  ⟨(resolveField_negation_message bareAliasConfig (str "any")
      ⟨.RegexpType, .StringType, false, false, none⟩ rfl rfl rfl).1,
   (resolveField_negation_message sampleConfig (str "count")
      ⟨.BoolType, .NoType, true, false, none⟩ rfl rfl rfl).2⟩

/-- C14 (as stated) fails: resolving `beta` where its feature flag is off and resolving
`beta` where the field does not exist give different errors, with different messages. -/
theorem resolveField_disabled_distinguishable :
    (resolveField flaggedConfig (str "beta") false).2.2 =
      some (.featureFlagDisabled (str "beta")) ∧
    (resolveField emptyConfig (str "beta") false).2.2 =
      some (.unrecognizedField (str "beta")) ∧
    (resolveField flaggedConfig (str "beta") false).2.2 ≠
      (resolveField emptyConfig (str "beta") false).2.2 ∧
    (CheckError.featureFlagDisabled (str "beta")).message sampleQuote =
      str "unrecognized field \"beta\"; the feature flag for this field is not enabled" ∧
    (CheckError.unrecognizedField (str "beta")).message sampleQuote =
      str "unrecognized field \"beta\"" := by
  decide

/-- C14 (as amended): resolving a name whose descriptor has an enablement predicate that
returns false fails with the message of the missing-field error for that name followed
by `; the feature flag for this field is not enabled`, while resolving it where the
field-type mapping lacks it fails with the missing-field error; the two differ. -/
theorem resolveField_disabled_message (c c2 : Config) (fieldName : GoString) (isNot : Bool)
    (typ : FieldType) (quote : GoString → GoString)
    (hget : c.FieldTypes.get (canonicalName c fieldName) = some typ)
    (hoff : typ.enabled = false)
    (hname : canonicalName c2 fieldName = canonicalName c fieldName)
    (hget2 : c2.FieldTypes.get (canonicalName c2 fieldName) = none) :
    (resolveField c fieldName isNot).2.2 =
      some (.featureFlagDisabled (canonicalName c fieldName)) ∧
    (resolveField c2 fieldName isNot).2.2 =
      some (.unrecognizedField (canonicalName c fieldName)) ∧
    (CheckError.featureFlagDisabled (canonicalName c fieldName)).message quote =
      (CheckError.unrecognizedField (canonicalName c fieldName)).message quote ++
        str "; the feature flag for this field is not enabled" ∧
    (CheckError.featureFlagDisabled (canonicalName c fieldName)).message quote ≠
      (CheckError.unrecognizedField (canonicalName c fieldName)).message quote := by
  refine ⟨?_, ?_, rfl, ?_⟩
  · rw [resolveField_canonical]; simp [hget, hoff]
  · rw [resolveField_canonical, hname] at *; rw [hname] at hget2; simp [hget2]
  · intro h
    have hl := congrArg List.length h
    simp only [CheckError.message, List.length_append] at hl
    have : 0 < (str "; the feature flag for this field is not enabled").length := by decide
    omega

/-- The disabled-field theorem at the field `beta`. -/
theorem resolveField_disabled_message_witness :
    (resolveField flaggedConfig (str "beta") true).2.2 =
      some (.featureFlagDisabled (str "beta")) ∧
    (resolveField emptyConfig (str "beta") true).2.2 =
      some (.unrecognizedField (str "beta")) :=
  have h := resolveField_disabled_message flaggedConfig emptyConfig (str "beta") true
    ⟨.StringType, .StringType, false, false, some (fun _ => false)⟩ sampleQuote
    rfl rfl rfl rfl
  ⟨h.1, h.2.1⟩

/-! ## Values -/

theorem setValue_ok (lib : GoLib) (dst v : Value) (text : GoString) (t : ValueType)
    (h : setValue lib dst text t = .ok v)
    (hdst : dst.String = none ∧ dst.Regexp = none ∧ dst.Bool = none) :
    v.syntaxExpr = dst.syntaxExpr ∧ populatedAs v t = true := by
  obtain ⟨hs, hr, hb⟩ := hdst
  cases t with
  | NoType => simp [setValue] at h
  | StringType =>
    simp only [setValue, Res.ok.injEq] at h
    subst h
    simp [populatedAs, hr, hb]
  | RegexpType =>
    simp only [setValue] at h
    cases hc : compileRegexp lib text with
    | ok p =>
      rw [hc] at h
      simp only [Res.ok.injEq] at h
      subst h
      simp [populatedAs, hs, hb]
    | error e => rw [hc] at h; simp at h
    | panic => rw [hc] at h; simp at h
  | BoolType =>
    simp only [setValue] at h
    cases hp : parseBool text with
    | ok b =>
      rw [hp] at h
      simp only [Res.ok.injEq] at h
      subst h
      simp [populatedAs, hs, hr]
    | error e => rw [hp] at h; simp at h

/-- A successful `checkExpr` is a successful field resolution followed by a successful
`setValue` of the selected type on the raw text, or on the unquoted text for a Quoted
token. -/
theorem checkExpr_ok_iff (lib : GoLib) (c : Config) (e : Expr) (f : GoString)
    (ft : FieldType) (v : Value) :
    checkExpr lib c e = .ok (f, ft, v) ↔
      resolveField c e.Field e.Not = (f, ft, none) ∧
      ∃ text, (if e.ValueType = .TokenQuoted then unquoteString lib e.Value = .ok text
                else text = e.Value) ∧
        setValue lib ⟨e, none, none, none⟩ text (selectedType ft e) = .ok v := by
  unfold checkExpr
  rcases hres : resolveField c e.Field e.Not with ⟨r, typ, err⟩
  cases err with
  | some err => simp
  | none =>
    simp only [Prod.mk.injEq, and_true]
    cases hk : e.ValueType with
    | TokenLiteral =>
      simp only [selectedType, hk, reduceCtorEq, if_false, exists_eq_left]
      cases hsv : setValue lib ⟨e, none, none, none⟩ e.Value typ.Literal with
      | ok a =>
        simp only [atPos, Res.ok.injEq, Prod.mk.injEq]
        constructor
        · rintro ⟨h1, h2, h3⟩
          subst h1 h2 h3
          exact ⟨⟨rfl, rfl⟩, hsv⟩
        · rintro ⟨⟨h1, h2⟩, h3⟩
          subst h1 h2
          rw [hsv] at h3
          simp only [Res.ok.injEq] at h3
          exact ⟨rfl, rfl, h3⟩
      | error err =>
        simp only [atPos, reduceCtorEq, false_iff, not_and]
        rintro ⟨h1, h2⟩ h3
        subst h2
        rw [hsv] at h3
        simp at h3
      | panic =>
        simp only [atPos, reduceCtorEq, false_iff, not_and]
        rintro ⟨h1, h2⟩ h3
        subst h2
        rw [hsv] at h3
        simp at h3
    | TokenPattern =>
      simp only [selectedType, hk, reduceCtorEq, if_false, exists_eq_left]
      cases hsv : setValue lib ⟨e, none, none, none⟩ e.Value .RegexpType with
      | ok a =>
        simp only [atPos, Res.ok.injEq, Prod.mk.injEq]
        constructor
        · rintro ⟨h1, h2, h3⟩
          subst h1 h2 h3
          exact ⟨⟨rfl, rfl⟩, rfl⟩
        · rintro ⟨⟨h1, h2⟩, h3⟩
          subst h1 h2
          exact ⟨rfl, rfl, h3⟩
      | error err => simp [atPos]
      | panic => simp [atPos]
    | TokenQuoted =>
      simp only [selectedType, hk, if_true]
      cases hu : unquoteString lib e.Value with
      | error err => simp
      | ok text =>
        simp only [Except.ok.injEq, exists_eq_left']
        cases hsv : setValue lib ⟨e, none, none, none⟩ text typ.Quoted with
        | ok a =>
          simp only [atPos, Res.ok.injEq, Prod.mk.injEq]
          constructor
          · rintro ⟨h1, h2, h3⟩
            subst h1 h2 h3
            exact ⟨⟨rfl, rfl⟩, hsv⟩
          · rintro ⟨⟨h1, h2⟩, h3⟩
            subst h1 h2
            rw [hsv] at h3
            simp only [Res.ok.injEq] at h3
            exact ⟨rfl, rfl, h3⟩
        | error err =>
          simp only [atPos, reduceCtorEq, false_iff, not_and]
          rintro ⟨h1, h2⟩ h3
          subst h2
          rw [hsv] at h3
          simp at h3
        | panic =>
          simp only [atPos, reduceCtorEq, false_iff, not_and]
          rintro ⟨h1, h2⟩ h3
          subst h2
          rw [hsv] at h3
          simp at h3
theorem resolveField_ok_iff (c : Config) (fieldName f : GoString) (typ : FieldType) :
    resolveField c fieldName false = (f, typ, none) ↔
      c.FieldTypes.get (canonicalName c fieldName) = some typ ∧ typ.enabled = true ∧
        f = canonicalName c fieldName := by
  rw [resolveField_canonical]
  cases hget : c.FieldTypes.get (canonicalName c fieldName) with
  | none => simp
  | some typ2 =>
    by_cases hen : typ2.enabled = true
    · simp only [hen, Bool.not_true, Bool.false_eq_true, if_false, Bool.false_and,
        Prod.mk.injEq, and_true, Option.some.injEq]
      constructor
      · rintro ⟨h1, h2⟩
        subst h2
        exact ⟨rfl, hen, h1.symm⟩
      · rintro ⟨h1, _, h3⟩
        exact ⟨h3.symm, h1⟩
    · have hen2 : typ2.enabled = false := by simpa using hen
      simp only [hen2, Bool.not_false, if_true, Prod.mk.injEq, reduceCtorEq, and_false,
        Option.some.injEq, false_iff, not_and]
      intro h2 h3
      subst h2
      rw [hen2] at h3
      simp at h3

theorem setValue_content (lib : GoLib) (e1 e2 : Expr) (text : GoString) (t : ValueType) :
    (match setValue lib ⟨e1, none, none, none⟩ text t with
      | .ok v => (Res.ok (v.String, v.Regexp, v.Bool) :
          Res CheckError (Option GoString × Option Regexp × Option Bool))
      | .error err => .error err
      | .panic => .panic) =
    (match setValue lib ⟨e2, none, none, none⟩ text t with
      | .ok v => .ok (v.String, v.Regexp, v.Bool)
      | .error err => .error err
      | .panic => .panic) := by
  cases t with
  | NoType => simp [setValue]
  | StringType => simp [setValue]
  | RegexpType =>
    simp only [setValue]
    cases compileRegexp lib text <;> simp
  | BoolType =>
    simp only [setValue]
    cases parseBool text <;> simp

theorem checkOutcome_atPos (pos : Int) (f : GoString) (ft : FieldType)
    (r : Res CheckError Value) :
    checkOutcome (atPos pos (fun v => (f, ft, v)) r) =
      match r with
      | .ok v => .ok (f, v.String, v.Regexp, v.Bool)
      | .error err => .error ⟨pos, err⟩
      | .panic => .panic := by
  cases r <;> rfl

theorem checkOutcome_atPos_congr (pos : Int) (f : GoString) (ft : FieldType) (lib : GoLib)
    (e1 e2 : Expr) (text : GoString) (t : ValueType) :
    checkOutcome (atPos pos (fun v => (f, ft, v)) (setValue lib ⟨e1, none, none, none⟩ text t)) =
    checkOutcome (atPos pos (fun v => (f, ft, v)) (setValue lib ⟨e2, none, none, none⟩ text t)) := by
  rw [checkOutcome_atPos, checkOutcome_atPos]
  have h := setValue_content lib e1 e2 text t
  cases h1 : setValue lib ⟨e1, none, none, none⟩ text t <;>
    cases h2 : setValue lib ⟨e2, none, none, none⟩ text t <;>
    rw [h1, h2] at h <;> simp at h ⊢
  · obtain ⟨a, b, c⟩ := h
    exact ⟨a, b, c⟩
  · exact h

/-- C12: for an expression whose field resolves to an enabled descriptor, if the
descriptor is not negatable the negated expression fails with the negation error at
its position, and if the descriptor is negatable the negated expression yields the same
outcome as the plain one: the same canonical field and the same string, pattern and
boolean variants (or the same error). -/
theorem checkExpr_negation (lib : GoLib) (c : Config) (e : Expr) (f : GoString)
    (typ : FieldType) (hres : resolveField c e.Field false = (f, typ, none)) :
    (typ.Negatable = false →
      checkExpr lib c { e with Not := true } =
        .error ⟨e.Pos, if f = [] then .negatedTerm else .negationUnsupported f⟩) ∧
    (typ.Negatable = true →
      checkOutcome (checkExpr lib c { e with Not := true }) =
        checkOutcome (checkExpr lib c { e with Not := false })) := by
  obtain ⟨hget, hen, hf⟩ := (resolveField_ok_iff c e.Field f typ).1 hres
  constructor
  · intro hneg
    have h : resolveField c e.Field true =
        ([], typ, some (if f = [] then CheckError.negatedTerm
          else CheckError.negationUnsupported f)) := by
      rw [resolveField_canonical, hget, ← hf]
      simp only [hen, hneg]
      by_cases h0 : f = [] <;> simp [h0]
    simp only [checkExpr, h]
  · intro hneg
    have h : resolveField c e.Field true = (f, typ, none) := by
      rw [resolveField_canonical, hget, ← hf]
      simp [hen, hneg]
    simp only [checkExpr, h, hres]
    cases hk : e.ValueType with
    | TokenLiteral => exact checkOutcome_atPos_congr _ _ _ _ _ _ _ _
    | TokenPattern => exact checkOutcome_atPos_congr _ _ _ _ _ _ _ _
    | TokenQuoted =>
      simp only
      cases unquoteString lib e.Value with
      | error err => rfl
      | ok text => exact checkOutcome_atPos_congr _ _ _ _ _ _ _ _

/-- The negation theorem at `-count:yes` (not negatable) and `-r:foo` (negatable). -/
theorem checkExpr_negation_witness :
    checkExpr sampleLib sampleConfig exprNotCountYes =
      .error ⟨0, .negationUnsupported (str "count")⟩ ∧
    checkOutcome (checkExpr sampleLib sampleConfig exprNotRepoFoo) =
      checkOutcome (checkExpr sampleLib sampleConfig exprRepoFoo) ∧
    checkOutcome (checkExpr sampleLib sampleConfig exprNotRepoFoo) =
      .ok (str "repo", none, some ⟨str "foo"⟩, none) :=
  ⟨(checkExpr_negation sampleLib sampleConfig exprCountYes (str "count")
      ⟨.BoolType, .NoType, true, false, none⟩ rfl).1 rfl,
   (checkExpr_negation sampleLib sampleConfig exprRepoFoo (str "repo")
      ⟨.RegexpType, .StringType, false, true, none⟩ rfl).2 rfl,
   by decide⟩

/-- C17: when `checkExpr` succeeds, exactly one variant of the value is populated, the
one of the type selected by the token kind (the literal type for Literal, the quoted
type for Quoted, Regexp for Pattern); the value is what `setValue` makes of the raw
text, or of the unquoted text for a Quoted token, and it refers to the expression. -/
theorem checkExpr_populated (lib : GoLib) (c : Config) (e : Expr) (f : GoString)
    (ft : FieldType) (v : Value) (h : checkExpr lib c e = .ok (f, ft, v)) :
    populatedAs v (selectedType ft e) = true ∧ v.syntaxExpr = e ∧
    ∃ text, (if e.ValueType = .TokenQuoted then unquoteString lib e.Value = .ok text
              else text = e.Value) ∧
      setValue lib ⟨e, none, none, none⟩ text (selectedType ft e) = .ok v := by
  obtain ⟨_, text, htext, hset⟩ := (checkExpr_ok_iff lib c e f ft v).1 h
  obtain ⟨h1, h2⟩ := setValue_ok lib _ v text _ hset ⟨rfl, rfl, rfl⟩
  exact ⟨h2, h1, text, htext, hset⟩

/-- The populated-variant theorem at `count:yes`, whose literal type is Boolean. -/
theorem checkExpr_populated_witness :
    populatedAs ⟨exprCountYes, none, none, some true⟩
      (selectedType ⟨.BoolType, .NoType, true, false, none⟩ exprCountYes) = true ∧
    (⟨exprCountYes, none, none, some true⟩ : Value).syntaxExpr = exprCountYes :=
  have h := checkExpr_populated sampleLib sampleConfig exprCountYes (str "count")
    ⟨.BoolType, .NoType, true, false, none⟩ ⟨exprCountYes, none, none, some true⟩ rfl
  ⟨h.1, h.2.1⟩

/-! ## The stored values -/

theorem valuesOf_cons (lib : GoLib) (c : Config) (field : GoString) (e : Expr)
    (l : List Expr) (f : GoString) (ft : FieldType) (v : Value)
    (h : checkExpr lib c e = .ok (f, ft, v)) :
    valuesOf lib c field (e :: l) =
      (if f = field then [v] else []) ++ valuesOf lib c field l := by
  unfold valuesOf
  by_cases hf : f = field <;> simp [List.filterMap_cons, h, hf]

theorem totalValues_set (m : GoMap (List Value)) (k : GoString) (v : Value) :
    totalValues (m.set k (m.getSlice k ++ [v])) = totalValues m + 1 := by
  obtain ⟨entries⟩ := m
  simp only [totalValues, GoMap.set, GoMap.getSlice, GoMap.get]
  induction entries with
  | nil => simp [assignEntry, lookupEntry]
  | cons p t ih =>
    obtain ⟨k', v'⟩ := p
    by_cases h : k' = k
    · subst h
      simp [assignEntry, lookupEntry]
      omega
    · have hstep : assignEntry k ((lookupEntry k ((k', v') :: t)).getD [] ++ [v])
          ((k', v') :: t) =
          (k', v') :: assignEntry k ((lookupEntry k t).getD [] ++ [v]) t := by
        simp [assignEntry, lookupEntry, h]
      rw [hstep]
      simp only [List.map_cons, List.sum_cons, ih]
      omega

theorem checkStep_ok_iff (lib : GoLib) (c : Config) (fields fields' : GoMap (List Value))
    (e : Expr) (h : checkStep lib c fields e = .ok fields') :
    ∃ f ft v, checkExpr lib c e = .ok (f, ft, v) ∧
      fields' = fields.set f (fields.getSlice f ++ [v]) := by
  unfold checkStep at h
  split at h
  · simp at h
  · simp at h
  · rename_i f ft v hexpr
    split_ifs at h
    simp only [Res.ok.injEq] at h
    exact ⟨f, ft, v, hexpr, h.symm⟩

theorem checkLoop_values (lib : GoLib) (c : Config) (l : List Expr)
    (fields fields' : GoMap (List Value)) (h : checkLoop lib c l fields = .ok fields') :
    (∀ f, fields'.getSlice f = fields.getSlice f ++ valuesOf lib c f l) ∧
    totalValues fields' = totalValues fields + l.length := by
  induction l generalizing fields with
  | nil =>
    simp only [checkLoop, Res.ok.injEq] at h
    subst h
    simp [valuesOf]
  | cons e t ih =>
    simp only [checkLoop] at h
    cases hstep : checkStep lib c fields e with
    | ok f2 =>
      rw [hstep] at h
      obtain ⟨f, ft, v, hexpr, hf2⟩ := checkStep_ok_iff lib c fields f2 e hstep
      obtain ⟨ih1, ih2⟩ := ih f2 h
      constructor
      · intro k
        rw [ih1 k, valuesOf_cons lib c k e t f ft v hexpr, hf2]
        by_cases hk : f = k
        · subst hk
          rw [GoMap.getSlice_set_same]
          simp
        · rw [GoMap.getSlice_set_other _ _ _ _ hk]
          simp [hk]
      · rw [ih2, hf2, totalValues_set]
        simp only [List.length_cons]
        omega
    | error err => rw [hstep] at h; simp at h
    | panic => rw [hstep] at h; simp at h

theorem valuesOf_syntaxExpr (lib : GoLib) (c : Config) (field : GoString) (l : List Expr) :
    (valuesOf lib c field l).map Value.syntaxExpr = l.filter (resolvesTo lib c field) := by
  induction l with
  | nil => simp [valuesOf]
  | cons e t ih =>
    cases hexpr : checkExpr lib c e with
    | ok r =>
      obtain ⟨f, ft, v⟩ := r
      rw [valuesOf_cons lib c field e t f ft v hexpr]
      have hv : v.syntaxExpr = e := (checkExpr_populated lib c e f ft v hexpr).2.1
      by_cases hf : f = field
      · simp [List.filter_cons, resolvesTo, hexpr, hf, ih, hv]
      · simp [List.filter_cons, resolvesTo, hexpr, hf, ih]
    | error err =>
      have : valuesOf lib c field (e :: t) = valuesOf lib c field t := by
        simp [valuesOf, List.filterMap_cons, hexpr]
      simp [this, List.filter_cons, resolvesTo, hexpr, ih]
    | panic =>
      have : valuesOf lib c field (e :: t) = valuesOf lib c field t := by
        simp [valuesOf, List.filterMap_cons, hexpr]
      simp [this, List.filter_cons, resolvesTo, hexpr, ih]

/-- C11: when `Check` succeeds, the result refers to the input query, the values stored
under each field are, in order, the values of the expressions that resolve to that
field, each value refers back to its own expression, and the number of stored values
equals the number of expressions. -/
theorem Check_values (lib : GoLib) (c : Config) (query : SyntaxQuery) (q : Query)
    (h : Check lib c query = .ok q) :
    q.Syntax = query ∧
    (∀ f, q.Fields.getSlice f = valuesOf lib c f query.Expr) ∧
    (∀ f, (q.Fields.getSlice f).map Value.syntaxExpr =
      query.Expr.filter (resolvesTo lib c f)) ∧
    totalValues q.Fields = query.Expr.length := by
  obtain ⟨hs, hloop⟩ := (Check_ok_iff lib c query q).1 h
  obtain ⟨h1, h2⟩ := checkLoop_values lib c query.Expr GoMap.empty q.Fields hloop
  have hval : ∀ f, q.Fields.getSlice f = valuesOf lib c f query.Expr := by
    intro f
    rw [h1 f, GoMap.getSlice_empty, List.nil_append]
  refine ⟨hs, hval, ?_, ?_⟩
  · intro f
    rw [hval f, valuesOf_syntaxExpr]
  · rw [h2]
    simp [totalValues, GoMap.empty]

/-- The stored-values theorem at `count:yes r:foo`. -/
theorem Check_values_witness :
    sampleTyped.Syntax = ⟨[exprCountYes, exprRepoFoo]⟩ ∧
    sampleTyped.Fields.getSlice (str "repo") =
      valuesOf sampleLib sampleConfig (str "repo") [exprCountYes, exprRepoFoo] ∧
    totalValues sampleTyped.Fields = 2 :=
  have h := Check_values sampleLib sampleConfig ⟨[exprCountYes, exprRepoFoo]⟩ sampleTyped
    (by decide)
  ⟨h.1, h.2.1 (str "repo"), h.2.2.2⟩

/-! ## The retried pattern -/

theorem OpeningRegexp.find_leftmost (r : OpeningRegexp) (pre post : GoString) (pos : Nat)
    (hpost : r.closing ∉ post)
    (hpre : ∀ p1 p2, pre = p1 ++ r.opening :: p2 → r.closing ∈ p2) :
    r.find (pre ++ r.opening :: post) pos = some (pos + pre.length) := by
  induction pre generalizing pos with
  | nil =>
    have hc : post.contains r.closing = false := by
      simpa [List.contains_eq_any_beq] using hpost
    rw [List.nil_append]
    show (if (r.opening = r.opening && !post.contains r.closing) = true
      then some pos else r.find post (pos + 1)) = _
    rw [hc]
    simp
  | cons a p ih =>
    have hcond : (a = r.opening && !(p ++ r.opening :: post).contains r.closing) = false := by
      by_cases ha : a = r.opening
      · have hmem : r.closing ∈ p := hpre [] p (by rw [ha]; rfl)
        have : (p ++ r.opening :: post).contains r.closing = true := by
          simp [List.contains_eq_any_beq]
          exact Or.inl hmem
        rw [this]
        simp
      · simp [ha]
    have hrec := ih (pos + 1) (fun p1 p2 h => hpre (a :: p1) p2 (by rw [h]; rfl))
    rw [List.cons_append]
    show (if (a = r.opening && !(p ++ r.opening :: post).contains r.closing) = true
      then some pos else r.find (p ++ r.opening :: post) (pos + 1)) = _
    rw [hcond, hrec]
    simp only [Bool.false_eq_true, if_false, List.length_cons]
    congr 1
    omega

/-- C18 (as stated) fails: for `a(b(c`, which has two unclosed opening parentheses, the
retried pattern has the backslash before the first of them, not before the last. -/
theorem correctedValue_escapes_first_unclosed :
    correctedValue (str "a(b(c") (str "error parsing regexp: missing closing ): `a(b(c`") =
      some (str "a\\(b(c") ∧
    correctedValue (str "a(b(c") (str "error parsing regexp: missing closing ): `a(b(c`") ≠
      some (str "a(b\\(c") := by
  decide

/-- C18 (as amended): when the message is of a family of `escapeErrorRegexps`, the byte
after the match is a closing delimiter whose opening counterpart `o` has a pattern in
`unmatchedOpeningRuneRegexps`, and the pattern splits as `pre ++ o :: post` with no
closing delimiter in `post` and a closing delimiter after every `o` of `pre` (so this `o`
is the first one with no closing delimiter after it), the text retried is the input with
one backslash inserted immediately before this `o` and nothing else changed. -/
theorem correctedValue_missing_closing (lib : GoLib) (msg pre post : GoString)
    (matchIndex : Nat × Nat) (b : UInt8) (r : OpeningRegexp)
    (hm : firstErrorMatch msg escapeErrorRegexps = some matchIndex)
    (hb : msg.get? matchIndex.2 = some b)
    (hr : unmatchedOpeningRuneRegexps (flipRune (b.toNat : Int)) = some r)
    (hpost : r.closing ∉ post)
    (hpre : ∀ p1 p2, pre = p1 ++ r.opening :: p2 → r.closing ∈ p2) :
    correctedValue (pre ++ r.opening :: post) msg = some (pre ++ 92 :: r.opening :: post) ∧
    fixupRegexpCompileError lib (pre ++ r.opening :: post) msg =
      Res.ofExcept (lib.compile (pre ++ 92 :: r.opening :: post)) := by
  have hast : flipRune (b.toNat : Int) ≠ asterisk := by
    intro h
    rw [h] at hr
    have hnone : unmatchedOpeningRuneRegexps asterisk = none := by decide
    rw [hnone] at hr
    simp at hr
  have hfind := OpeningRegexp.find_leftmost r pre post 0 hpost hpre
  have hc : correctedValue (pre ++ r.opening :: post) msg =
      some (pre ++ 92 :: r.opening :: post) := by
    unfold correctedValue
    simp only [hm, hb, hast, if_false, hr, hfind, Nat.zero_add]
    simp
  exact ⟨hc, fixupRegexpCompileError_corrected lib _ _ _ hc⟩

/-- The retried-pattern theorem at `a(b`, retried as `a\(b`. -/
theorem correctedValue_missing_closing_witness :
    correctedValue (str "a(b") (str "error parsing regexp: missing closing ): `a(b`") =
      some (str "a\\(b") ∧
    fixupRegexpCompileError sampleLib (str "a(b")
        (str "error parsing regexp: missing closing ): `a(b`") =
      Res.ofExcept (sampleLib.compile (str "a\\(b")) :=
  correctedValue_missing_closing sampleLib
    (str "error parsing regexp: missing closing ): `a(b`") [97] [98] (22, 38) 41 ⟨40, 41⟩
    (by decide) (by decide) (by decide) (by decide)
    (by
      intro p1 p2 h
      have h40 : (40 : UInt8) ∈ [(97 : UInt8)] := by
        rw [h]; simp
      exact absurd h40 (by decide))

end QueryTypes

namespace Notify

/-! ## Recipient deduplication -/

theorem dedupLoop_eq {User : Type} (UID : User → Int) (users : List User) (seen : List Int)
    (dedup : List User) :
    dedupLoop UID users seen dedup = dedup ++ firstSeen UID users seen := by
  induction users generalizing seen dedup with
  | nil => simp [dedupLoop, firstSeen]
  | cons u rest ih =>
    by_cases h : UID u ∈ seen
    · simp [dedupLoop, firstSeen, h, ih]
    · simp [dedupLoop, firstSeen, h, ih]

theorem dedupUsers_eq {User : Type} (UID : User → Int) (users : List User) :
    dedupUsers UID users = firstSeen UID users [] := by
  simp [dedupUsers, dedupLoop_eq]

theorem firstSeen_not_seen {User : Type} (UID : User → Int) (users : List User)
    (seen : List Int) : ∀ v ∈ firstSeen UID users seen, UID v ∉ seen := by
  induction users generalizing seen with
  | nil => simp [firstSeen]
  | cons u rest ih =>
    intro v hv
    by_cases h : UID u ∈ seen
    · simp only [firstSeen, h, if_true] at hv
      exact ih seen v hv
    · simp only [firstSeen, h, if_false, List.mem_cons] at hv
      rcases hv with hv | hv
      · rw [hv]; exact h
      · have := ih (UID u :: seen) v hv
        simp only [List.mem_cons, not_or] at this
        exact this.2

theorem firstSeen_sublist {User : Type} (UID : User → Int) (users : List User)
    (seen : List Int) : (firstSeen UID users seen).Sublist users := by
  induction users generalizing seen with
  | nil => simp [firstSeen]
  | cons u rest ih =>
    by_cases h : UID u ∈ seen
    · simp only [firstSeen, h, if_true]
      exact (ih seen).cons u
    · simp only [firstSeen, h, if_false]
      exact (ih (UID u :: seen)).cons₂ u

theorem firstSeen_nodup {User : Type} (UID : User → Int) (users : List User)
    (seen : List Int) : ((firstSeen UID users seen).map UID).Nodup := by
  induction users generalizing seen with
  | nil => simp [firstSeen]
  | cons u rest ih =>
    by_cases h : UID u ∈ seen
    · simp only [firstSeen, h, if_true]
      exact ih seen
    · simp only [firstSeen, h, if_false, List.map_cons, List.nodup_cons]
      refine ⟨?_, ih (UID u :: seen)⟩
      intro hmem
      obtain ⟨v, hv, hvu⟩ := List.mem_map.1 hmem
      have := firstSeen_not_seen UID rest (UID u :: seen) v hv
      simp only [List.mem_cons, not_or] at this
      exact this.1 hvu

theorem firstSeen_covers {User : Type} (UID : User → Int) (users : List User)
    (seen : List Int) :
    ∀ u ∈ users, UID u ∈ seen ∨ ∃ v ∈ firstSeen UID users seen, UID v = UID u := by
  induction users generalizing seen with
  | nil => simp
  | cons a rest ih =>
    intro u hu
    by_cases h : UID a ∈ seen
    · simp only [firstSeen, h, if_true]
      rcases List.mem_cons.1 hu with hu | hu
      · left; rw [hu]; exact h
      · exact ih seen u hu
    · simp only [firstSeen, h, if_false]
      rcases List.mem_cons.1 hu with hu | hu
      · right; exact ⟨a, List.mem_cons_self _ _, by rw [hu]⟩
      · rcases ih (UID a :: seen) u hu with h2 | ⟨v, hv, hvu⟩
        · rcases List.mem_cons.1 h2 with h3 | h3
          · right; exact ⟨a, List.mem_cons_self _ _, h3.symm⟩
          · left; exact h3
        · right; exact ⟨v, List.mem_cons_of_mem _ hv, hvu⟩

theorem firstSeen_first {User : Type} (UID : User → Int) (users : List User)
    (seen : List Int) :
    ∀ v ∈ firstSeen UID users seen,
      users.find? (fun u => decide (UID u = UID v)) = some v := by
  induction users generalizing seen with
  | nil => simp [firstSeen]
  | cons a rest ih =>
    intro v hv
    by_cases h : UID a ∈ seen
    · simp only [firstSeen, h, if_true] at hv
      have hne : UID a ≠ UID v := by
        intro he
        exact firstSeen_not_seen UID rest seen v hv (he ▸ h)
      simp only [List.find?_cons, hne, decide_False]
      exact ih seen v hv
    · simp only [firstSeen, h, if_false, List.mem_cons] at hv
      rcases hv with hv | hv
      · subst hv
        simp [List.find?_cons]
      · have hns := firstSeen_not_seen UID rest (UID a :: seen) v hv
        simp only [List.mem_cons, not_or] at hns
        have hne : UID a ≠ UID v := fun he => hns.1 he.symm
        simp only [List.find?_cons, hne, decide_False]
        exact ih (UID a :: seen) v hv

theorem firstSeen_fixed {User : Type} (UID : User → Int) (l : List User) (seen : List Int)
    (hnodup : (l.map UID).Nodup) (hfresh : ∀ v ∈ l, UID v ∉ seen) :
    firstSeen UID l seen = l := by
  induction l generalizing seen with
  | nil => simp [firstSeen]
  | cons a rest ih =>
    have ha : UID a ∉ seen := hfresh a (List.mem_cons_self _ _)
    simp only [List.map_cons, List.nodup_cons] at hnodup
    simp only [firstSeen, ha, if_false, List.cons.injEq, true_and]
    apply ih (UID a :: seen) hnodup.2
    intro v hv
    simp only [List.mem_cons, not_or]
    refine ⟨?_, hfresh v (List.mem_cons_of_mem _ hv)⟩
    intro he
    exact hnodup.1 (List.mem_map.2 ⟨v, hv, he⟩)

/-- C20: `dedupUsers` keeps, in order, the first user of each UID: the result has
pairwise distinct UIDs, is a subsequence of the input, has a user for every UID of the
input, each user kept is the first of the input with its UID, and applying `dedupUsers`
to the result returns it unchanged. -/
theorem dedupUsers_spec {User : Type} (UID : User → Int) (users : List User) :
    ((dedupUsers UID users).map UID).Nodup ∧
    (dedupUsers UID users).Sublist users ∧
    (∀ u ∈ users, ∃ v ∈ dedupUsers UID users, UID v = UID u) ∧
    (∀ v ∈ dedupUsers UID users, users.find? (fun u => decide (UID u = UID v)) = some v) ∧
    dedupUsers UID (dedupUsers UID users) = dedupUsers UID users := by
  rw [dedupUsers_eq UID (dedupUsers UID users), dedupUsers_eq UID users]
  refine ⟨firstSeen_nodup UID users [], firstSeen_sublist UID users [], ?_,
    firstSeen_first UID users [], ?_⟩
  · intro u hu
    rcases firstSeen_covers UID users [] u hu with h | h
    · simp at h
    · exact h
  · exact firstSeen_fixed UID _ [] (firstSeen_nodup UID users []) (by simp)

/-- The function `dedupUsers` on users given as pairs of a UID and a login. -/
theorem dedupUsers_example :
    dedupUsers Prod.fst [((1 : Int), "a"), (2, "b"), (1, "c"), (3, "d"), (2, "e")] =
      [(1, "a"), (2, "b"), (3, "d")] := by
  decide

end Notify

namespace QueryTypes

/-! ## Bytes and runes -/

theorem u8_lt_iff (a b : UInt8) : a < b ↔ a.toNat < b.toNat := Iff.rfl

theorem u8_le_iff (a b : UInt8) : a ≤ b ↔ a.toNat ≤ b.toNat := Iff.rfl

theorem u8_eq_iff (a b : UInt8) : a = b ↔ a.toNat = b.toNat :=
  ⟨fun h => by rw [h], UInt8.toNat.inj⟩

theorem u8_ofNat_toNat (b : UInt8) (n : Nat) (h : n = b.toNat) : UInt8.ofNat n = b := by
  subst h
  apply UInt8.toNat.inj
  rw [UInt8.toNat_ofNat_of_lt (UInt8.toNat_lt_size b)]

theorem u8_lits :
    UInt8.toNat 128 = 128 ∧ UInt8.toNat 143 = 143 ∧ UInt8.toNat 144 = 144 ∧
    UInt8.toNat 159 = 159 ∧ UInt8.toNat 160 = 160 ∧ UInt8.toNat 191 = 191 ∧
    UInt8.toNat 194 = 194 ∧ UInt8.toNat 223 = 223 ∧ UInt8.toNat 224 = 224 ∧
    UInt8.toNat 237 = 237 ∧ UInt8.toNat 239 = 239 ∧ UInt8.toNat 240 = 240 ∧
    UInt8.toNat 243 = 243 ∧ UInt8.toNat 244 = 244 :=
  ⟨rfl, rfl, rfl, rfl, rfl, rfl, rfl, rfl, rfl, rfl, rfl, rfl, rfl, rfl⟩

theorem runeWidth_wellFormed2 (b0 b1 : UInt8) (t : GoString)
    (h : wellFormed2 b0.toNat b1.toNat) : runeWidth (b0 :: b1 :: t) = 2 := by
  obtain ⟨h1, h2, h3, h4⟩ := h
  unfold runeWidth
  simp only [u8_lt_iff, u8_le_iff, u8_eq_iff, Bool.and_eq_true, decide_eq_true_eq, u8_lits]
  have a1 : ¬ b0.toNat < 194 := by omega
  simp only [a1, h2, h3, h4, if_false, if_true, and_self]

theorem runeWidth_wellFormed3 (b0 b1 b2 : UInt8) (t : GoString)
    (h : wellFormed3 b0.toNat b1.toNat b2.toNat) : runeWidth (b0 :: b1 :: b2 :: t) = 3 := by
  obtain ⟨h1, h2, h3, h4, h5, h6, h7, h8⟩ := h
  unfold runeWidth
  simp only [u8_lt_iff, u8_le_iff, u8_eq_iff, Bool.and_eq_true, decide_eq_true_eq, u8_lits]
  have a1 : ¬ b0.toNat < 194 := by omega
  have a2 : ¬ b0.toNat ≤ 223 := by omega
  simp only [a1, a2, h2, h3, h4, h7, h8, if_false, if_true, and_self, and_true, true_and]
  split_ifs <;> first | rfl | omega

theorem runeWidth_wellFormed4 (b0 b1 b2 b3 : UInt8) (t : GoString)
    (h : wellFormed4 b0.toNat b1.toNat b2.toNat b3.toNat) :
    runeWidth (b0 :: b1 :: b2 :: b3 :: t) = 4 := by
  obtain ⟨h1, h2, h3, h4, h5, h6, h7, h8, h9, h10⟩ := h
  unfold runeWidth
  simp only [u8_lt_iff, u8_le_iff, u8_eq_iff, Bool.and_eq_true, decide_eq_true_eq, u8_lits]
  have a1 : ¬ b0.toNat < 194 := by omega
  have a2 : ¬ b0.toNat ≤ 223 := by omega
  have a3 : ¬ b0.toNat ≤ 239 := by omega
  have a4 : ¬ b0.toNat = 224 := by omega
  have a5 : ¬ b0.toNat = 237 := by omega
  simp only [a1, a2, a3, a4, a5, h3, h4, h7, h8, h9, h10, if_false, if_true, and_self,
    and_true, true_and]
  split_ifs <;> first | rfl | omega

/-- A rune of width other than 1 is one of the three well-formed shapes. -/
theorem runeWidth_cases (b0 : UInt8) (t : GoString) (h : runeWidth (b0 :: t) ≠ 1) :
    (∃ b1 t', t = b1 :: t' ∧ wellFormed2 b0.toNat b1.toNat) ∨
    (∃ b1 b2 t', t = b1 :: b2 :: t' ∧ wellFormed3 b0.toNat b1.toNat b2.toNat) ∨
    (∃ b1 b2 b3 t', t = b1 :: b2 :: b3 :: t' ∧
      wellFormed4 b0.toNat b1.toNat b2.toNat b3.toNat) := by
  unfold runeWidth at h
  simp only [u8_lt_iff, u8_le_iff, u8_eq_iff, Bool.and_eq_true, decide_eq_true_eq, u8_lits]
    at h
  split_ifs at h with c1 c2 c3 c4 c5 c6 c7 c8
  · exact absurd rfl h
  · left
    split at h
    · rename_i b1 t'
      split_ifs at h with d
      · exact ⟨b1, t', rfl, by unfold wellFormed2; omega⟩
      · exact absurd rfl h
    · exact absurd rfl h
  all_goals first
    | exact absurd rfl h
    | (right; left
       split at h
       · rename_i b1 b2 t'
         split_ifs at h with d
         · exact ⟨b1, b2, t', rfl, by unfold wellFormed3; omega⟩
         · exact absurd rfl h
       · exact absurd rfl h)
    | (right; right
       split at h
       · rename_i b1 b2 b3 t'
         split_ifs at h with d
         · exact ⟨b1, b2, b3, t', rfl, by unfold wellFormed4; omega⟩
         · exact absurd rfl h
       · exact absurd rfl h)
theorem utf8DecodeRune_wellFormed2 (b0 b1 : UInt8) (t : GoString)
    (h : wellFormed2 b0.toNat b1.toNat) :
    utf8DecodeRune (b0 :: b1 :: t) = (b0.toNat % 32 * 64 + b1.toNat % 64, 2) := by
  have hw := runeWidth_wellFormed2 b0 b1 t h
  have h0 : ¬ b0 < 0x80 := by
    rw [u8_lt_iff, u8_lits.1]
    unfold wellFormed2 at h
    omega
  unfold utf8DecodeRune
  simp only [h0, if_false, hw]

theorem utf8DecodeRune_wellFormed3 (b0 b1 b2 : UInt8) (t : GoString)
    (h : wellFormed3 b0.toNat b1.toNat b2.toNat) :
    utf8DecodeRune (b0 :: b1 :: b2 :: t) =
      (b0.toNat % 16 * 4096 + b1.toNat % 64 * 64 + b2.toNat % 64, 3) := by
  have hw := runeWidth_wellFormed3 b0 b1 b2 t h
  have h0 : ¬ b0 < 0x80 := by
    rw [u8_lt_iff, u8_lits.1]
    unfold wellFormed3 at h
    omega
  unfold utf8DecodeRune
  simp only [h0, if_false, hw]

theorem utf8DecodeRune_wellFormed4 (b0 b1 b2 b3 : UInt8) (t : GoString)
    (h : wellFormed4 b0.toNat b1.toNat b2.toNat b3.toNat) :
    utf8DecodeRune (b0 :: b1 :: b2 :: b3 :: t) =
      (b0.toNat % 8 * 262144 + b1.toNat % 64 * 4096 + b2.toNat % 64 * 64 + b3.toNat % 64,
        4) := by
  have hw := runeWidth_wellFormed4 b0 b1 b2 b3 t h
  have h0 : ¬ b0 < 0x80 := by
    rw [u8_lt_iff, u8_lits.1]
    unfold wellFormed4 at h
    omega
  unfold utf8DecodeRune
  simp only [h0, if_false, hw]

theorem utf8EncodeRune_wellFormed2 (b0 b1 : UInt8) (h : wellFormed2 b0.toNat b1.toNat) :
    utf8EncodeRune (b0.toNat % 32 * 64 + b1.toNat % 64) = [b0, b1] ∧
    128 ≤ b0.toNat % 32 * 64 + b1.toNat % 64 := by
  unfold wellFormed2 at h
  have hr1 : ¬ (b0.toNat % 32 * 64 + b1.toNat % 64 ≤ 0x7F) := by omega
  have hr2 : b0.toNat % 32 * 64 + b1.toNat % 64 ≤ 0x7FF := by omega
  refine ⟨?_, by omega⟩
  unfold utf8EncodeRune
  simp only [hr1, hr2, if_false, if_true]
  rw [u8_ofNat_toNat b0 _ (by omega), u8_ofNat_toNat b1 _ (by omega)]

theorem utf8EncodeRune_wellFormed3 (b0 b1 b2 : UInt8)
    (h : wellFormed3 b0.toNat b1.toNat b2.toNat) :
    utf8EncodeRune (b0.toNat % 16 * 4096 + b1.toNat % 64 * 64 + b2.toNat % 64) =
      [b0, b1, b2] ∧
    128 ≤ b0.toNat % 16 * 4096 + b1.toNat % 64 * 64 + b2.toNat % 64 := by
  unfold wellFormed3 at h
  generalize hr : b0.toNat % 16 * 4096 + b1.toNat % 64 * 64 + b2.toNat % 64 = r
  have hr1 : ¬ (r ≤ 0x7F) := by omega
  have hr2 : ¬ (r ≤ 0x7FF) := by omega
  have hr3 : r ≤ 0xFFFF := by omega
  have hv : utf8ValidRune r = true := by
    unfold utf8ValidRune
    simp only [Bool.or_eq_true, Bool.and_eq_true, decide_eq_true_eq]
    omega
  refine ⟨?_, by omega⟩
  unfold utf8EncodeRune
  simp only [hr1, hr2, hr3, hv, if_false, if_true, Bool.not_true, Bool.false_eq_true]
  rw [u8_ofNat_toNat b0 _ (by omega), u8_ofNat_toNat b1 _ (by omega),
    u8_ofNat_toNat b2 _ (by omega)]

theorem utf8EncodeRune_wellFormed4 (b0 b1 b2 b3 : UInt8)
    (h : wellFormed4 b0.toNat b1.toNat b2.toNat b3.toNat) :
    utf8EncodeRune
        (b0.toNat % 8 * 262144 + b1.toNat % 64 * 4096 + b2.toNat % 64 * 64 + b3.toNat % 64) =
      [b0, b1, b2, b3] ∧
    128 ≤ b0.toNat % 8 * 262144 + b1.toNat % 64 * 4096 + b2.toNat % 64 * 64 +
      b3.toNat % 64 := by
  unfold wellFormed4 at h
  generalize hr :
    b0.toNat % 8 * 262144 + b1.toNat % 64 * 4096 + b2.toNat % 64 * 64 + b3.toNat % 64 = r
  have hr1 : ¬ (r ≤ 0x7F) := by omega
  have hr2 : ¬ (r ≤ 0x7FF) := by omega
  have hr3 : ¬ (r ≤ 0xFFFF) := by omega
  have hv : utf8ValidRune r = true := by
    unfold utf8ValidRune
    simp only [Bool.or_eq_true, Bool.and_eq_true, decide_eq_true_eq]
    omega
  refine ⟨?_, by omega⟩
  unfold utf8EncodeRune
  simp only [hr1, hr2, hr3, hv, if_false, Bool.not_true, Bool.false_eq_true]
  rw [u8_ofNat_toNat b0 _ (by omega), u8_ofNat_toNat b1 _ (by omega),
    u8_ofNat_toNat b2 _ (by omega), u8_ofNat_toNat b3 _ (by omega)]

/-! ## Unquoting a rewritten single-quoted text -/

theorem replaceByte_cons (old : UInt8) (new : GoString) (b : UInt8) (t : GoString) :
    replaceByte old new (b :: t) = (if b = old then new else [b]) ++ replaceByte old new t := by
  simp [replaceByte, List.flatMap_cons]

theorem replaceByte_id (old : UInt8) (new s : GoString) (h : old ∉ s) :
    replaceByte old new s = s := by
  induction s with
  | nil => rfl
  | cons b t ih =>
    simp only [List.mem_cons, not_or] at h
    rw [replaceByte_cons, ih h.2]
    simp [Ne.symm h.1]

theorem mem_replaceByte_quote (x : UInt8) (s : GoString) :
    x ∈ replaceByte 34 [92, 34] s ↔ (x ∈ s ∧ x ≠ 34) ∨ (34 ∈ s ∧ (x = 92 ∨ x = 34)) := by
  induction s with
  | nil => simp [replaceByte]
  | cons b t ih =>
    rw [replaceByte_cons, List.mem_append, ih]
    by_cases hb : b = 34
    · subst hb
      simp only [if_true, List.mem_cons, List.mem_singleton, List.not_mem_nil, or_false,
        true_or, true_and]
      constructor
      · rintro (h | h | h)
        · exact Or.inr h
        · exact Or.inl ⟨Or.inr h.1, h.2⟩
        · exact Or.inr h.2
      · rintro (⟨h1 | h1, h2⟩ | h)
        · exact absurd h1 h2
        · exact Or.inr (Or.inl ⟨h1, h2⟩)
        · exact Or.inl h
    · simp only [hb, if_false, List.mem_cons, List.not_mem_nil, or_false]
      constructor
      · rintro (h | h | h)
        · exact Or.inl ⟨Or.inl h, h ▸ hb⟩
        · exact Or.inl ⟨Or.inr h.1, h.2⟩
        · exact Or.inr ⟨Or.inr h.1, h.2⟩
      · rintro (⟨h1 | h1, h2⟩ | ⟨h1 | h1, h2⟩)
        · exact Or.inl h1
        · exact Or.inr (Or.inl ⟨h1, h2⟩)
        · exact absurd h1.symm hb
        · exact Or.inr (Or.inr ⟨h1, h2⟩)

theorem unquoteLoop_ascii (fuel : Nat) (b : UInt8) (rest buf : GoString)
    (h128 : b < 0x80) (h92 : b ≠ 92) (h34 : b ≠ 34) :
    unquoteLoop 34 (fuel + 1) (b :: rest) buf = unquoteLoop 34 fuel rest (buf ++ [b]) := by
  have hn : ¬ (0x80 : UInt8) ≤ b := UInt8.not_le.2 h128
  have hlt : b.toNat < 128 := by
    have := (u8_lt_iff b 0x80).1 h128
    rwa [u8_lits.1] at this
  have hc : strconvUnquoteChar (b :: rest) 34 = some (b.toNat, false, rest) := by
    simp [strconvUnquoteChar, h34, hn, h92]
  simp only [unquoteLoop, hc]
  have h39 : ¬ ((34 : UInt8) = 39 ∧ rest ≠ []) := by
    rintro ⟨h, _⟩
    exact absurd h (by decide)
  simp only [h39, if_false, hlt, decide_True, Bool.true_or, if_true,
    u8_ofNat_toNat b b.toNat rfl]

theorem unquoteLoop_escaped_quote (fuel : Nat) (rest buf : GoString) :
    unquoteLoop 34 (fuel + 1) (92 :: 34 :: rest) buf =
      unquoteLoop 34 fuel rest (buf ++ [34]) := by
  have hc : strconvUnquoteChar (92 :: 34 :: rest) 34 = some (34, false, rest) := by
    simp [strconvUnquoteChar]
  simp only [unquoteLoop, hc]
  have h39 : ¬ ((34 : UInt8) = 39 ∧ rest ≠ []) := by
    rintro ⟨h, _⟩
    exact absurd h (by decide)
  simp only [h39, if_false]
  rfl

theorem unquoteLoop_multibyte (fuel : Nat) (b0 : UInt8) (t rest buf enc : GoString) (r w : Nat)
    (h0 : (0x80 : UInt8) ≤ b0)
    (hd : utf8DecodeRune (b0 :: t) = (r, w)) (hdrop : (b0 :: t).drop w = rest)
    (henc : utf8EncodeRune r = enc) (hr : 128 ≤ r) :
    unquoteLoop 34 (fuel + 1) (b0 :: t) buf = unquoteLoop 34 fuel rest (buf ++ enc) := by
  have h34 : b0 ≠ 34 := by
    intro h
    rw [h] at h0
    exact absurd h0 (by decide)
  have hc : strconvUnquoteChar (b0 :: t) 34 = some (r, true, rest) := by
    simp only [strconvUnquoteChar, h34, false_and, if_false, h0, if_true, hd, hdrop]
  simp only [unquoteLoop, hc]
  have h39 : ¬ ((34 : UInt8) = 39 ∧ rest ≠ []) := by
    rintro ⟨h, _⟩
    exact absurd h (by decide)
  have hr2 : ¬ r < 128 := by omega
  simp only [h39, if_false, hr2, decide_False, Bool.not_true, Bool.or_self,
    Bool.false_eq_true, henc]
theorem u8_ge128_ne34 (b : UInt8) (h : 128 ≤ b.toNat) : b ≠ 34 := by
  intro hb
  rw [hb] at h
  exact absurd h (by decide)

theorem u8_ge128_le (b : UInt8) (h : 128 ≤ b.toNat) : (0x80 : UInt8) ≤ b := by
  rw [u8_le_iff, u8_lits.1]
  exact h

/-- The loop of `strconv.Unquote` on a rewritten body: a body of well-formed UTF-8
without backslashes, in which every double quote was replaced by backslash-quote, is
unquoted to the body itself. -/
theorem unquoteLoop_rewritten (n : Nat) :
    ∀ (body : GoString), body.length ≤ n → (92 : UInt8) ∉ body → utf8Valid 0 body = true →
      ∀ (fuel : Nat) (buf : GoString), (replaceByte 34 [92, 34] body).length ≤ fuel →
        unquoteLoop 34 fuel (replaceByte 34 [92, 34] body) buf = some (buf ++ body) := by
  induction n with
  | zero =>
    intro body hlen _ _ fuel buf _
    have : body = [] := List.length_eq_zero.1 (Nat.le_zero.1 hlen)
    subst this
    cases fuel <;> simp [replaceByte, unquoteLoop]
  | succ n ih =>
    intro body hlen h92 hvalid fuel buf hfuel
    cases body with
    | nil => cases fuel <;> simp [replaceByte, unquoteLoop]
    | cons b0 t =>
      simp only [List.mem_cons, not_or] at h92
      simp only [List.length_cons, Nat.add_le_add_iff_right] at hlen
      by_cases hascii : b0 < 0x80
      · have hvt : utf8Valid 0 t = true := by
          simpa [utf8Valid, hascii] using hvalid
        by_cases h34 : b0 = 34
        · subst h34
          rw [replaceByte_cons] at hfuel ⊢
          simp only [if_true, List.cons_append, List.nil_append, List.length_cons] at hfuel ⊢
          obtain ⟨f, rfl⟩ : ∃ f, fuel = f + 1 := ⟨fuel - 1, by omega⟩
          rw [unquoteLoop_escaped_quote, ih t hlen h92.2 hvt f _ (by omega)]
          simp
        · rw [replaceByte_cons] at hfuel ⊢
          simp only [h34, if_false, List.cons_append, List.nil_append, List.length_cons]
            at hfuel ⊢
          obtain ⟨f, rfl⟩ : ∃ f, fuel = f + 1 := ⟨fuel - 1, by omega⟩
          rw [unquoteLoop_ascii f b0 _ buf hascii (Ne.symm h92.1) h34,
            ih t hlen h92.2 hvt f _ (by omega)]
          simp
      · have hw : runeWidth (b0 :: t) ≠ 1 := by
          intro hw1
          simp [utf8Valid, hascii, hw1] at hvalid
        rcases runeWidth_cases b0 t hw with ⟨b1, t', ht, hwf⟩ | ⟨b1, b2, t', ht, hwf⟩ |
            ⟨b1, b2, b3, t', ht, hwf⟩
        · subst ht
          have hvt : utf8Valid 0 t' = true := by
            have hw2 := runeWidth_wellFormed2 b0 b1 t' hwf
            simpa [utf8Valid, hascii, hw2] using hvalid
          have hd := utf8DecodeRune_wellFormed2 b0 b1 (replaceByte 34 [92, 34] t') hwf
          obtain ⟨henc, hr⟩ := utf8EncodeRune_wellFormed2 b0 b1 hwf
          unfold wellFormed2 at hwf
          have e0 := u8_ge128_ne34 b0 (by omega)
          have e1 := u8_ge128_ne34 b1 (by omega)
          simp only [List.mem_cons, not_or] at h92
          simp only [List.length_cons] at hlen
          rw [replaceByte_cons, replaceByte_cons] at hfuel ⊢
          simp only [e0, e1, if_false, List.cons_append, List.nil_append, List.length_cons]
            at hfuel ⊢
          obtain ⟨f, rfl⟩ : ∃ f, fuel = f + 1 := ⟨fuel - 1, by omega⟩
          rw [unquoteLoop_multibyte f b0 _ _ buf _ _ _ (u8_ge128_le b0 (by omega)) hd rfl
            henc hr]
          simp only [List.drop_succ_cons, List.drop_zero]
          rw [ih t' (by omega) h92.2.2 hvt f _ (by omega)]
          simp
        · subst ht
          have hvt : utf8Valid 0 t' = true := by
            have hw3 := runeWidth_wellFormed3 b0 b1 b2 t' hwf
            simpa [utf8Valid, hascii, hw3] using hvalid
          have hd := utf8DecodeRune_wellFormed3 b0 b1 b2 (replaceByte 34 [92, 34] t') hwf
          obtain ⟨henc, hr⟩ := utf8EncodeRune_wellFormed3 b0 b1 b2 hwf
          unfold wellFormed3 at hwf
          have e0 := u8_ge128_ne34 b0 (by omega)
          have e1 := u8_ge128_ne34 b1 (by omega)
          have e2 := u8_ge128_ne34 b2 (by omega)
          simp only [List.mem_cons, not_or] at h92
          simp only [List.length_cons] at hlen
          rw [replaceByte_cons, replaceByte_cons, replaceByte_cons] at hfuel ⊢
          simp only [e0, e1, e2, if_false, List.cons_append, List.nil_append,
            List.length_cons] at hfuel ⊢
          obtain ⟨f, rfl⟩ : ∃ f, fuel = f + 1 := ⟨fuel - 1, by omega⟩
          rw [unquoteLoop_multibyte f b0 _ _ buf _ _ _ (u8_ge128_le b0 (by omega)) hd rfl
            henc hr]
          simp only [List.drop_succ_cons, List.drop_zero]
          rw [ih t' (by omega) h92.2.2.2 hvt f _ (by omega)]
          simp
        · subst ht
          have hvt : utf8Valid 0 t' = true := by
            have hw4 := runeWidth_wellFormed4 b0 b1 b2 b3 t' hwf
            simpa [utf8Valid, hascii, hw4] using hvalid
          have hd := utf8DecodeRune_wellFormed4 b0 b1 b2 b3 (replaceByte 34 [92, 34] t') hwf
          obtain ⟨henc, hr⟩ := utf8EncodeRune_wellFormed4 b0 b1 b2 b3 hwf
          unfold wellFormed4 at hwf
          have e0 := u8_ge128_ne34 b0 (by omega)
          have e1 := u8_ge128_ne34 b1 (by omega)
          have e2 := u8_ge128_ne34 b2 (by omega)
          have e3 := u8_ge128_ne34 b3 (by omega)
          simp only [List.mem_cons, not_or] at h92
          simp only [List.length_cons] at hlen
          rw [replaceByte_cons, replaceByte_cons, replaceByte_cons, replaceByte_cons]
            at hfuel ⊢
          simp only [e0, e1, e2, e3, if_false, List.cons_append, List.nil_append,
            List.length_cons] at hfuel ⊢
          obtain ⟨f, rfl⟩ : ∃ f, fuel = f + 1 := ⟨fuel - 1, by omega⟩
          rw [unquoteLoop_multibyte f b0 _ _ buf _ _ _ (u8_ge128_le b0 (by omega)) hd rfl
            henc hr]
          simp only [List.drop_succ_cons, List.drop_zero]
          rw [ih t' (by omega) h92.2.2.2.2 hvt f _ (by omega)]
          simp

theorem quoted_shape (q : UInt8) (inner : GoString) :
    (q :: (inner ++ [q])).length = inner.length + 2 ∧
    (q :: (inner ++ [q])).head? = some q ∧
    (q :: (inner ++ [q])).getLast? = some q ∧
    ((q :: (inner ++ [q])).drop 1).take ((q :: (inner ++ [q])).length - 2) = inner := by
  refine ⟨by simp, rfl, ?_, ?_⟩
  · rw [← List.cons_append, List.getLast?_append]
    simp
  · simp only [List.drop_succ_cons, List.drop_zero, List.length_cons, List.length_append,
      List.length_singleton]
    have hl : inner.length + ([] : GoString).length + 1 + 1 - 2 = inner.length := by
      simp
    simp

/-- The library unquoting of a rewritten body: see `unquoteLoop_rewritten`. -/
theorem strconvUnquote_rewritten (body : GoString) (h92 : (92 : UInt8) ∉ body)
    (h10 : (10 : UInt8) ∉ body) (hvalid : utf8Valid 0 body = true) :
    strconvUnquote ([34] ++ replaceByte 34 [92, 34] body ++ [34]) = some body := by
  obtain ⟨hlen, hhead, hlast, hinner⟩ := quoted_shape 34 (replaceByte 34 [92, 34] body)
  have hshape : [34] ++ replaceByte 34 [92, 34] body ++ [34] =
      34 :: (replaceByte 34 [92, 34] body ++ [34]) := by simp
  rw [hshape]
  unfold strconvUnquote
  simp only [hhead, hlast, hinner]
  have hn : ¬ (34 :: (replaceByte 34 [92, 34] body ++ [34])).length < 2 := by
    rw [hlen]; omega
  simp only [hn, if_false]
  have hnl : (replaceByte 34 [92, 34] body).contains 10 = false := by
    rw [List.contains_eq_any_beq, List.any_eq_false]
    intro x hx he
    have hx10 : 10 = x := by simpa using he
    subst hx10
    rcases (mem_replaceByte_quote _ body).1 hx with h | h
    · exact h10 h.1
    · rcases h.2 with h | h <;> exact absurd h (by decide)
  rw [if_neg (by decide), if_neg (by decide), if_neg (by decide), hnl,
    if_neg (by decide)]
  simp only [if_true]
  by_cases hfast : (!(replaceByte 34 [92, 34] body).contains 92 &&
      !(replaceByte 34 [92, 34] body).contains 34 &&
      utf8Valid 0 (replaceByte 34 [92, 34] body)) = true
  · rw [if_pos hfast]
    have h34 : (34 : UInt8) ∉ body := by
      intro hmem
      have hm92 : (92 : UInt8) ∈ replaceByte 34 [92, 34] body :=
        (mem_replaceByte_quote 92 body).2 (Or.inr ⟨hmem, Or.inl rfl⟩)
      have hc : (replaceByte 34 [92, 34] body).contains 92 = true := by
        rw [List.contains_eq_any_beq, List.any_eq_true]
        exact ⟨92, hm92, by simp⟩
      rw [hc] at hfast
      simp at hfast
    rw [replaceByte_id 34 _ body h34]
  · rw [if_neg hfast]
    have := unquoteLoop_rewritten body.length body (le_refl _) h92 hvalid
      (replaceByte 34 [92, 34] body).length [] (le_refl _)
    simpa using this

/-- C15 (as stated) fails: for the single-quoted input `'a"b\q'`, whose body has an
embedded double quote and an invalid escape, the error names the rewritten text
`"a\"b\q"`, not the input. -/
theorem unquoteString_error_names_rewritten :
    unquoteString (stdLib sampleLib.compile) (str "'a\"b\\q'") =
      .error (.invalidQuotedString (str "\"a\\\"b\\q\"")) ∧
    unquoteString (stdLib sampleLib.compile) (str "'a\"b\\q'") ≠
      .error (.invalidQuotedString (str "'a\"b\\q'")) ∧
    (CheckError.invalidQuotedString (str "\"a\\\"b\\q\"")).message sampleQuote =
      str "invalid quoted string: \"a\\\"b\\q\"" := by
  decide

/-- C15 (as amended): when `unquoteString` fails, the error names the text that was
handed to `strconv.Unquote`: the input itself, unless the input has at least two bytes
and starts and ends with a single quote, in which case it names the rewritten text (a
double quote, the body with a backslash before every double quote, a double quote). -/
theorem unquoteString_error (lib : GoLib) (s : GoString) (e : CheckError)
    (h : unquoteString lib s = .error e) :
    e = .invalidQuotedString
      (if 2 ≤ s.length ∧ s.head? = some 39 ∧ s.getLast? = some 39 then
        [34] ++ replaceByte 34 [92, 34] ((s.drop 1).take (s.length - 2)) ++ [34]
      else s) := by
  unfold unquoteString at h
  simp only at h
  split at h
  · simp at h
  · simp only [Except.error.injEq] at h
    exact h.symm

/-- The error theorem at the single-quoted input `'\q'`, for which the error names the
rewritten text `"\q"`. -/
theorem unquoteString_error_witness :
    unquoteString (stdLib sampleLib.compile) (str "'\\q'") =
      .error (.invalidQuotedString (str "\"\\q\"")) ∧
    CheckError.invalidQuotedString (str "\"\\q\"") = .invalidQuotedString
      (if 2 ≤ (str "'\\q'").length ∧ (str "'\\q'").head? = some 39 ∧
          (str "'\\q'").getLast? = some 39 then
        [34] ++ replaceByte 34 [92, 34]
          (((str "'\\q'").drop 1).take ((str "'\\q'").length - 2)) ++ [34]
      else str "'\\q'") :=
  ⟨by decide,
   unquoteString_error (stdLib sampleLib.compile) (str "'\\q'") _ (by decide)⟩

/-- C16 (as stated) fails: the single-quoted text whose body is the single byte 0xFF
(no backslash, no newline) unquotes to the encoding of U+FFFD, not to the body. -/
theorem unquoteString_replaces_invalid_bytes :
    unquoteString (stdLib sampleLib.compile) [39, 0xFF, 39] = .ok [0xEF, 0xBF, 0xBD] ∧
    unquoteString (stdLib sampleLib.compile) [39, 0xFF, 39] ≠ .ok [0xFF] := by
  decide

/-- C16 (as amended): for a single-quoted text whose body is well-formed UTF-8 and
contains no backslash and no newline (it may contain double quotes and be of any
length), `unquoteString` with the library unquoting succeeds and returns the body. -/
theorem unquoteString_single_quoted (compile : GoString → Except GoString Regexp)
    (body : GoString) (h92 : (92 : UInt8) ∉ body) (h10 : (10 : UInt8) ∉ body)
    (hvalid : utf8Valid 0 body = true) :
    unquoteString (stdLib compile) ([39] ++ body ++ [39]) = .ok body := by
  obtain ⟨hlen, hhead, hlast, hinner⟩ := quoted_shape 39 body
  have hshape : [39] ++ body ++ [39] = 39 :: (body ++ [39]) := by simp
  rw [hshape]
  unfold unquoteString
  have hcond : 2 ≤ (39 :: (body ++ [39])).length ∧ (39 :: (body ++ [39])).head? = some 39 ∧
      (39 :: (body ++ [39])).getLast? = some 39 := ⟨by rw [hlen]; omega, hhead, hlast⟩
  simp only [hcond, and_self, if_true, hinner, stdLib,
    strconvUnquote_rewritten body h92 h10 hvalid]

/-- The single-quote theorem at `'say "hi"'`, which unquotes to `say "hi"`. -/
theorem unquoteString_single_quoted_witness :
    unquoteString (stdLib sampleLib.compile) (str "'say \"hi\"'") = .ok (str "say \"hi\"") :=
  unquoteString_single_quoted sampleLib.compile (str "say \"hi\"")
    (by decide) (by decide) (by decide)

end QueryTypes
